import Mathlib

/-!
# Verification of the openproxy protocol-translation gateway

Shallow embedding of the mapping / stream-translation layer of the
`ttttmr/openproxy` repository (TypeScript), together with proofs about the
spec claims C1–C10.

Conventions used throughout the embedding:
* TS `x: T | null | undefined` fields are `Option T`; where the source code
  distinguishes `undefined` (absent field) from `null` we use
  `Option (Option T)` (`none` = absent/undefined, `some none` = null).
* JS truthiness of an optional string (`if (s)`) is `strTruthy`:
  absent/`null`/`""` are falsy.
* `JSON.parse` is modelled by the executable `Json.parse` below; a throwing
  `JSON.parse` call site is modelled by propagating `Option.none`.
* Streams are modelled at the parsed-chunk level: the SSE framing
  (`data: ` lines, `[DONE]`, malformed-line skipping) and writer plumbing
  are outside every claim considered here.
-/

namespace OpenProxy

/-! ## JSON value model

A model of JSON values and of `JSON.parse` / `JSON.stringify`.
The parser is a fuel-indexed recursive-descent parser covering the JSON
subset exercised by this code base (null, booleans, integer numbers,
escape-free strings, arrays, objects); fractional numbers and string
escapes are outside the subset.  All concrete strings used in theorems
below are inside the subset, where this model agrees with `JSON.parse`.
-/

inductive Json where
  | null : Json
  | bool (b : Bool) : Json
  | num (n : Int) : Json
  | str (s : String) : Json
  | arr (xs : List Json) : Json
  | obj (fields : List (String × Json)) : Json
deriving Repr

/-- Whitespace skipping (space, tab, CR, LF), as in the JSON grammar. -/
def skipWs : List Char → List Char
  | [] => []
  | c :: cs => if c = ' ' ∨ c = '\t' ∨ c = '\n' ∨ c = '\r' then skipWs cs else c :: cs

/-- Consume an expected literal character sequence. -/
def dropLit : List Char → List Char → Option (List Char)
  | [], cs => some cs
  | _ :: _, [] => none
  | l :: ls, c :: cs => if c = l then dropLit ls cs else none

/-- Parse the body of a string literal after the opening quote
(escape-free subset); returns the string and the rest after the
closing quote. -/
def parseStringBody : List Char → Option (String × List Char)
  | [] => none
  | c :: cs =>
    if c = '"' then some ("", cs)
    else match parseStringBody cs with
      | some (s, rest) => some (String.mk [c] ++ s, rest)
      | none => none

def isDigitChar (c : Char) : Bool := '0' ≤ c ∧ c ≤ '9'

/-- Greedily take leading digits. -/
def takeDigits : List Char → List Char × List Char
  | [] => ([], [])
  | c :: cs =>
    if isDigitChar c then
      let (ds, rest) := takeDigits cs
      (c :: ds, rest)
    else ([], c :: cs)

def digitsToNat (ds : List Char) : Nat :=
  ds.foldl (fun n c => 10 * n + (c.toNat - '0'.toNat)) 0

/-- Parse an (integer) JSON number. -/
def parseNumber (cs : List Char) : Option (Json × List Char) :=
  match cs with
  | '-' :: rest =>
    match takeDigits rest with
    | ([], _) => none
    | (ds, rest') => some (.num (-(digitsToNat ds : Int)), rest')
  | _ =>
    match takeDigits cs with
    | ([], _) => none
    | (ds, rest') => some (.num (digitsToNat ds : Int), rest')

mutual

/-- Fuel-indexed JSON value parser. -/
def parseValue : Nat → List Char → Option (Json × List Char)
  | 0, _ => none
  | fuel + 1, cs =>
    match skipWs cs with
    | [] => none
    | c :: rest =>
      if c = '"' then
        match parseStringBody rest with
        | some (s, rest') => some (.str s, rest')
        | none => none
      else if c = 'n' then
        match dropLit ['u', 'l', 'l'] rest with
        | some rest' => some (.null, rest')
        | none => none
      else if c = 't' then
        match dropLit ['r', 'u', 'e'] rest with
        | some rest' => some (.bool true, rest')
        | none => none
      else if c = 'f' then
        match dropLit ['a', 'l', 's', 'e'] rest with
        | some rest' => some (.bool false, rest')
        | none => none
      else if c = '[' then
        match skipWs rest with
        | ']' :: rest' => some (.arr [], rest')
        | rest' =>
          match parseItems fuel rest' with
          | some (xs, rest'') => some (.arr xs, rest'')
          | none => none
      else if c = '{' then
        match skipWs rest with
        | '}' :: rest' => some (.obj [], rest')
        | rest' =>
          match parseFields fuel rest' with
          | some (fs, rest'') => some (.obj fs, rest'')
          | none => none
      else
        parseNumber (c :: rest)

/-- Parse the comma-separated items of an array, up to and including `]`. -/
def parseItems : Nat → List Char → Option (List Json × List Char)
  | 0, _ => none
  | fuel + 1, cs =>
    match parseValue fuel cs with
    | none => none
    | some (v, rest) =>
      match skipWs rest with
      | ',' :: rest' =>
        match parseItems fuel rest' with
        | some (xs, rest'') => some (v :: xs, rest'')
        | none => none
      | ']' :: rest' => some ([v], rest')
      | _ => none

/-- Parse the comma-separated fields of an object, up to and including `}`. -/
def parseFields : Nat → List Char → Option (List (String × Json) × List Char)
  | 0, _ => none
  | fuel + 1, cs =>
    match skipWs cs with
    | '"' :: rest =>
      match parseStringBody rest with
      | none => none
      | some (k, rest') =>
        match skipWs rest' with
        | ':' :: rest'' =>
          match parseValue fuel rest'' with
          | none => none
          | some (v, rest3) =>
            match skipWs rest3 with
            | ',' :: rest4 =>
              match parseFields fuel rest4 with
              | some (fs, rest5) => some ((k, v) :: fs, rest5)
              | none => none
            | '}' :: rest4 => some ([(k, v)], rest4)
            | _ => none
        | _ => none
    | _ => none

end

/-- `JSON.parse`: parse one value and require only whitespace after it;
`none` models a thrown `SyntaxError`. -/
def Json.parse (s : String) : Option Json :=
  match parseValue (s.length + 2) s.data with
  | some (v, rest) => if (skipWs rest).isEmpty then some v else none
  | none => none

mutual

/-- `JSON.stringify` on the modelled subset (strings are escape-free). -/
def Json.render : Json → String
  | .null => "null"
  | .bool true => "true"
  | .bool false => "false"
  | .num n => toString n
  | .str s => "\"" ++ s ++ "\""
  | .arr xs => "[" ++ Json.renderList xs ++ "]"
  | .obj fs => "\x7b" ++ Json.renderFields fs ++ "\x7d"

def Json.renderList : List Json → String
  | [] => ""
  | [x] => Json.render x
  | x :: xs => Json.render x ++ "," ++ Json.renderList xs

def Json.renderFields : List (String × Json) → String
  | [] => ""
  | [(k, v)] => "\"" ++ k ++ "\":" ++ Json.render v
  | (k, v) :: fs => "\"" ++ k ++ "\":" ++ Json.render v ++ "," ++ Json.renderFields fs

end

/-- JS truthiness of a `string | null | undefined` value:
absent, `null` and `""` are falsy. -/
def strTruthy : Option String → Bool
  | none => false
  | some s => s ≠ ""

/-! ## Finish-reason mappers

From `src/providers/anthropic/utils.ts` (`mapFinishReason`) and
`src/providers/gemini/utils.ts` (`mapFinishReason`).  Both take
`reason: string | null | undefined`; `none` covers both `null` and
`undefined` (the `switch` treats them identically via the default case). -/

inductive AnthropicStopReason where
  | end_turn | max_tokens | stop_sequence | tool_use
deriving Repr, DecidableEq

/-- `mapFinishReason` from `src/providers/anthropic/utils.ts`:
`switch` over the reason string; the result `none` models returning
`null`. -/
def anthropicMapFinishReason (reason : Option String) : Option AnthropicStopReason :=
  match reason with
  | some r =>
    if r = "stop" then some .end_turn
    else if r = "length" then some .max_tokens
    else if r = "function_call" then some .tool_use
    else if r = "tool_calls" then some .tool_use
    else if r = "content_filter" then none
    else none
  | none => none

inductive GeminiFinishReason where
  | STOP | MAX_TOKENS | SAFETY | OTHER
deriving Repr, DecidableEq

/-- `mapFinishReason` from `src/providers/gemini/utils.ts` (identical to the
private copy in `src/providers/gemini/mapper.ts`). -/
def geminiMapFinishReason (reason : Option String) : GeminiFinishReason :=
  match reason with
  | some r =>
    if r = "stop" then .STOP
    else if r = "length" then .MAX_TOKENS
    else if r = "content_filter" then .SAFETY
    else if r = "tool_calls" then .STOP
    else if r = "function_call" then .STOP
    else .OTHER
  | none => .OTHER

/-! ## OpenAI stream-chunk wire model

`OpenAI.Chat.ChatCompletionChunk`, restricted to the fields the mappers
read (`id`, `object`, `created`, `model`, `logprobs` are never consulted).
`delta` is optional because `mapOpenAIStreamChunkToAnthropic` defensively
handles a choice without a `delta` property. -/

structure ToolCallFunctionDelta where
  name : Option String
  arguments : Option String
deriving Repr, DecidableEq

structure ToolCallDelta where
  index : Nat
  id : Option String
  function : Option ToolCallFunctionDelta
deriving Repr, DecidableEq

structure ChunkDelta where
  role : Option String
  content : Option String
  tool_calls : Option (List ToolCallDelta)
deriving Repr, DecidableEq

structure ChunkChoice where
  index : Nat
  delta : Option ChunkDelta
  finish_reason : Option String
deriving Repr, DecidableEq

structure ChatCompletionChunk where
  choices : List ChunkChoice
deriving Repr, DecidableEq

/-! ## Anthropic stream translator

From `src/providers/anthropic/sse.ts`, `mapOpenAIStreamChunkToAnthropic`.
Event payload fields that are constants in the source (`input: {}` on the
opened tool-use block, `stop_sequence: null` and the zeroed `usage` on
`message_delta`) are not carried by the event model. -/

inductive AnthropicEvent where
  /-- `content_block_delta` with a `text_delta` payload. -/
  | content_block_delta_text (index : Nat) (text : String)
  /-- `content_block_start` opening a `tool_use` block (`input: {}`). -/
  | content_block_start_tool (index : Nat) (id : String) (name : String)
  /-- `content_block_delta` with an `input_json_delta` payload. -/
  | content_block_delta_input_json (index : Nat) (partial_json : String)
  | content_block_stop (index : Nat)
  /-- `message_delta` (carries the mapped stop reason; `stop_sequence: null`
  and the zero usage are constants in the source). -/
  | message_delta (stop_reason : Option AnthropicStopReason)
  | message_stop
deriving Repr, DecidableEq

/-- Events produced for one entry of `delta.tool_calls`:
`content_block_start` when the fragment carries a (truthy) function name,
`content_block_delta`/`input_json_delta` when it carries (truthy) argument
text.  `toolCall.index || 0` equals `toolCall.index` on `Nat`;
`toolCall.id || ''` is `getD ""`. -/
def toolCallDeltaEvents (tc : ToolCallDelta) : List AnthropicEvent :=
  let fname := tc.function.bind (·.name)
  let fargs := tc.function.bind (·.arguments)
  (if strTruthy fname then
      [.content_block_start_tool tc.index (tc.id.getD "") (fname.getD "")]
    else []) ++
  (if strTruthy fargs then
      [.content_block_delta_input_json tc.index (fargs.getD "")]
    else [])

/-- `mapOpenAIStreamChunkToAnthropic` from `src/providers/anthropic/sse.ts`.
Empty `choices`, a missing first choice, or a first choice without `delta`
yield no events; the `delta.tool_calls.length > 0` guard is subsumed by
iterating the list. -/
def mapOpenAIStreamChunkToAnthropic (chunk : ChatCompletionChunk) : List AnthropicEvent :=
  match chunk.choices.head? with
  | none => []
  | some choice =>
    match choice.delta with
    | none => []
    | some delta =>
      (if strTruthy delta.content then
          [.content_block_delta_text 0 (delta.content.getD "")]
        else []) ++
      (match delta.tool_calls with
       | some tcs => tcs.flatMap toolCallDeltaEvents
       | none => []) ++
      (if strTruthy choice.finish_reason then
          [.content_block_stop 0,
           .message_delta (anthropicMapFinishReason choice.finish_reason),
           .message_stop]
        else [])

/-- The three stream-terminating event kinds of the Anthropic protocol. -/
def isTerminalEvent : AnthropicEvent → Bool
  | .content_block_stop _ => true
  | .message_delta _ => true
  | .message_stop => true
  | _ => false

/-! ## OpenAI non-streaming response wire model

`OpenAI.Chat.ChatCompletion`, restricted to the fields the response mappers
read.  `message.content` is `Option (Option String)` because
`mapOpenAIResponseToAnthropic` distinguishes an absent field
(`content !== undefined`) from `null` (`content || ''`).  The `usage`
pass-through (`prompt_tokens`/`completion_tokens` with `|| 0`) is not
modelled: no claim mentions usage. -/

structure ResponseToolCallFunction where
  name : String
  arguments : String
deriving Repr, DecidableEq

structure ResponseToolCall where
  id : String
  type : String
  function : ResponseToolCallFunction
deriving Repr, DecidableEq

structure ResponseMessage where
  /-- `none` = field absent (undefined); `some none` = `null`;
  `some (some s)` = the string `s`. -/
  content : Option (Option String)
  tool_calls : Option (List ResponseToolCall)
deriving Repr, DecidableEq

structure ResponseChoice where
  index : Nat
  message : ResponseMessage
  finish_reason : Option String
deriving Repr, DecidableEq

structure ChatCompletion where
  id : String
  model : String
  choices : List ResponseChoice
deriving Repr, DecidableEq

/-! ## Anthropic response mapper

From `src/providers/anthropic/response.ts`, `mapOpenAIResponseToAnthropic`
(the legacy copy in `mapper.ts` is line-for-line the same algorithm). -/

inductive AnthropicContentBlock where
  /-- `TextBlock` (`citations: null` constant). -/
  | text (text : String)
  | tool_use (id : String) (name : String) (input : Json)
deriving Repr

/-- The fields of `Anthropic.Message` that are not constants
(`type: 'message'`, `role: 'assistant'`, `stop_sequence: null`) and not
claim-irrelevant usage pass-through. -/
structure AnthropicMessage where
  id : String
  content : List AnthropicContentBlock
  model : String
  stop_reason : Option AnthropicStopReason
deriving Repr

/-- Blocks contributed by one upstream tool call:
`JSON.parse(toolCall.function.arguments || '{}')` has **no** try/catch in the
source, so a parse failure is a thrown `SyntaxError`, modelled as `none`. -/
def anthropicToolUseBlocks (tc : ResponseToolCall) : Option (List AnthropicContentBlock) :=
  if tc.type = "function" then
    match Json.parse (if tc.function.arguments = "" then "\x7b\x7d" else tc.function.arguments) with
    | some j => some [.tool_use tc.id tc.function.name j]
    | none => none
  else
    some []

/-- `mapOpenAIResponseToAnthropic` from `src/providers/anthropic/response.ts`.
Result `none` models a thrown exception escaping the function: an absent
`choices[0]` (the source dereferences `choice.message` unconditionally), or
`JSON.parse` throwing on malformed tool-call arguments.  The
`tool_calls && tool_calls.length > 0` guard is subsumed by iterating the
(possibly empty) list. -/
def mapOpenAIResponseToAnthropic (resp : ChatCompletion) : Option AnthropicMessage :=
  match resp.choices.head? with
  | none => none
  | some choice =>
    let textBlocks : List AnthropicContentBlock :=
      match choice.message.content with
      | none => []
      | some c => [.text (c.getD "")]
    match (choice.message.tool_calls.getD []).mapM anthropicToolUseBlocks with
    | none => none
    | some toolLists =>
      let content := textBlocks ++ toolLists.flatten
      let content := if content.isEmpty then [.text ""] else content
      some ⟨resp.id, content, resp.model, anthropicMapFinishReason choice.finish_reason⟩

/-! ## Gemini response mapper

From `src/providers/gemini/mapper.ts`, `mapOpenAIResponseToGemini`. -/

inductive GPart where
  | text (s : String)
  /-- Gemini function-call part.  `id = none` models a `functionCall` without
  an `id` property (the response mapper of `mapper.ts` instead injects the
  call id into the args object); the stream flush of `gemini/sse.ts` sets
  `id`. -/
  | functionCall (id : Option String) (name : String) (args : Json)
deriving Repr

/-- One Gemini candidate (`content.role = 'model'` constant). -/
structure GeminiCandidate where
  parts : List GPart
  finishReason : Option GeminiFinishReason
  index : Nat
deriving Repr

structure GeminiResponse where
  candidates : List GeminiCandidate
deriving Repr

/-- `(args as any).__tool_call_id = toolCall.id`: JS property assignment is a
silent no-op on a primitive parse result; on an object it adds the field (the
key is fresh in every run arising here, so appending models it). -/
def jsInjectToolCallId (j : Json) (id : String) : Json :=
  match j with
  | .obj fs => .obj (fs ++ [("__tool_call_id", .str id)])
  | other => other

/-- Parts of one candidate before the ≥1-part fallback: a text part when
`content !== null && content !== undefined`, then one function-call part per
`function`-typed tool call, with `JSON.parse(arguments)` guarded by
try/catch (failure → `{}`, logged) and the call id injected into the args. -/
def geminiResponseParts (msg : ResponseMessage) : List GPart :=
  (match msg.content with
   | some (some s) => [.text s]
   | _ => []) ++
  (match msg.tool_calls with
   | some tcs => tcs.flatMap (fun tc =>
       if tc.type = "function" then
         [.functionCall none tc.function.name
            (jsInjectToolCallId ((Json.parse tc.function.arguments).getD (.obj [])) tc.id)]
       else [])
   | none => [])

/-- `mapOpenAIResponseToGemini` from `src/providers/gemini/mapper.ts`: one
candidate per choice, with `parts.push({ text: '' })` as the ≥1-part
fallback and the finish reason always mapped. -/
def mapOpenAIResponseToGemini (resp : ChatCompletion) : GeminiResponse :=
  ⟨resp.choices.map (fun choice =>
    let parts := geminiResponseParts choice.message
    let parts := if parts.isEmpty then [.text ""] else parts
    ⟨parts, some (geminiMapFinishReason choice.finish_reason), choice.index⟩)⟩

/-! ## Anthropic request mapper — message/block algorithm

From `src/providers/anthropic/request.ts`, `mapAnthropicRequestToOpenAI`
(the per-message content-block loop with its closure
`flushCurrentMessage`).  The surrounding request plumbing (system prompt,
`max_tokens` → `max_completion_tokens`, tools, tool_choice) is not part of
claims C6/C7 and is not modelled. -/

/-- `block.input` of a `tool_use` block: `typeof block.input === 'string'`
distinguishes a string input from an arbitrary JSON value. -/
inductive ToolUseInput where
  | str (s : String)
  | json (j : Json)
deriving Repr

/-- `block.content` of a `tool_result` block: a string, or an arbitrary
value that the source serialises with `JSON.stringify`. -/
inductive ToolResultContent where
  | str (s : String)
  | json (j : Json)
deriving Repr

inductive AnthropicBlock where
  | text (text : String)
  /-- `image` with `source.type === 'base64'`. -/
  | image_base64 (media_type : String) (data : String)
  /-- `image` with `source.type === 'url'`. -/
  | image_url (url : String)
  | tool_use (id : String) (name : String) (input : ToolUseInput)
  | tool_result (tool_use_id : String) (content : ToolResultContent)
  /-- `thinking` blocks are skipped. -/
  | thinking
  /-- default case: logged as unsupported and dropped. -/
  | unsupported (btype : String)
deriving Repr

inductive AnthropicMessageContent where
  | str (s : String)
  | blocks (bs : List AnthropicBlock)
deriving Repr

structure AnthropicRequestMessage where
  /-- `'user' | 'assistant'` in the Anthropic API. -/
  role : String
  content : AnthropicMessageContent
deriving Repr

inductive OAContentPart where
  | text (text : String)
  | image_url (url : String)
deriving Repr, DecidableEq

/-- `content` of an emitted OpenAI message: `null`, a bare string, or a
multipart array. -/
inductive OAMessageContent where
  | null
  | str (s : String)
  | parts (ps : List OAContentPart)
deriving Repr, DecidableEq

/-- An emitted tool call (`type: 'function'` constant). -/
structure OAToolCall where
  id : String
  name : String
  arguments : String
deriving Repr, DecidableEq

structure OARequestMessage where
  role : String
  content : OAMessageContent
  tool_calls : Option (List OAToolCall)
  tool_call_id : Option String
deriving Repr, DecidableEq

/-- `typeof block.input === 'string' ? block.input : JSON.stringify(block.input)`. -/
def renderToolUseInput : ToolUseInput → String
  | .str s => s
  | .json j => j.render

/-- `typeof block.content === 'string' ? block.content : JSON.stringify(block.content)`. -/
def renderToolResultContent : ToolResultContent → String
  | .str s => s
  | .json j => j.render

/-- `isAssistantContentPart` from `request.ts`: `part.type === 'text'`. -/
def isAssistantContentPart : OAContentPart → Bool
  | .text _ => true
  | .image_url _ => false

/-- The `content` computed by `flushCurrentMessage`: `null` when no parts
accumulated, the bare string for a single text part, the multipart array
otherwise. -/
def contentOfParts (ps : List OAContentPart) : OAMessageContent :=
  if ps.isEmpty then .null
  else
    match ps with
    | [.text t] => .str t
    | ps => .parts ps

/-- `content.filter(isAssistantContentPart)` applied when the content is an
array (assistant messages may not carry image parts). -/
def assistantFilter : OAMessageContent → OAMessageContent
  | .parts ps => .parts (ps.filter isAssistantContentPart)
  | c => c

/-- The closure `flushCurrentMessage` of `mapAnthropicRequestToOpenAI`
(`request.ts`): flush the accumulated parts/tool calls as at most one
message.  (When tool calls are absent, `content !== null` holds whenever
the guard passed, but the check is kept as in the source.) -/
def flushCurrentMessage (role : String) (currentContent : List OAContentPart)
    (currentToolCalls : List OAToolCall) : List OARequestMessage :=
  if currentContent.isEmpty ∧ currentToolCalls.isEmpty then []
  else
    let content := contentOfParts currentContent
    if !currentToolCalls.isEmpty then
      [⟨"assistant", assistantFilter content, some currentToolCalls, none⟩]
    else if role = "user" ∧ content ≠ .null then
      [⟨"user", content, none, none⟩]
    else if role = "assistant" ∧ content ≠ .null then
      [⟨"assistant", assistantFilter content, none, none⟩]
    else []

/-- The block loop of `mapAnthropicRequestToOpenAI` (`request.ts`) in
accumulator form: `currentContent`/`currentToolCalls` are the loop's mutable
buffers; messages are emitted in order (the imperative loop appends to
`messages` exactly at `tool_result` blocks and at the final flush). -/
def mapBlocks (role : String) (currentContent : List OAContentPart)
    (currentToolCalls : List OAToolCall) : List AnthropicBlock → List OARequestMessage
  | [] => flushCurrentMessage role currentContent currentToolCalls
  | b :: bs =>
    match b with
    | .text t => mapBlocks role (currentContent ++ [.text t]) currentToolCalls bs
    | .image_base64 mt d =>
        mapBlocks role (currentContent ++ [.image_url ("data:" ++ mt ++ ";base64," ++ d)])
          currentToolCalls bs
    | .image_url u => mapBlocks role (currentContent ++ [.image_url u]) currentToolCalls bs
    | .tool_use id name input =>
        mapBlocks role currentContent
          (currentToolCalls ++ [⟨id, name, renderToolUseInput input⟩]) bs
    | .tool_result tuid c =>
        flushCurrentMessage role currentContent currentToolCalls ++
          ⟨"tool", .str (renderToolResultContent c), none, some tuid⟩ :: mapBlocks role [] [] bs
    | .thinking => mapBlocks role currentContent currentToolCalls bs
    | .unsupported _ => mapBlocks role currentContent currentToolCalls bs

/-- One Anthropic message → OpenAI messages: a bare-string content bypasses
the block algorithm (role preserved verbatim); block content runs the loop
with empty buffers and flushes at the end. -/
def mapAnthropicMessage (msg : AnthropicRequestMessage) : List OARequestMessage :=
  match msg.content with
  | .str s => [⟨msg.role, .str s, none, none⟩]
  | .blocks bs => mapBlocks msg.role [] [] bs

/-- Declarative view: the content part a non-`tool_result` block contributes
to the accumulation buffer. -/
def blockToContentPart : AnthropicBlock → Option OAContentPart
  | .text t => some (.text t)
  | .image_base64 mt d => some (.image_url ("data:" ++ mt ++ ";base64," ++ d))
  | .image_url u => some (.image_url u)
  | _ => none

/-- Declarative view: the pending tool call a block contributes. -/
def blockToToolCall : AnthropicBlock → Option OAToolCall
  | .tool_use id name input => some ⟨id, name, renderToolUseInput input⟩
  | _ => none

def isToolResultBlock : AnthropicBlock → Bool
  | .tool_result _ _ => true
  | _ => false

/-! ## Gemini stream translator

From `src/providers/gemini/sse.ts`: `mapOpenAIStreamChunkToGemini` and the
pump loop of `convertOpenAIStreamToGeminiSSE` (the inline loop in
`gemini/handler.ts#handleStream` is the same algorithm, differing only in
carrying the flushed id inside the args object instead of on the part).
The stream is modelled at the parsed-chunk level; a chunk on which the
translation throws (a choice without `delta`, dereferenced by
`choice.delta.content`) is caught by the per-line handler and skipped
without output or buffer update. -/

/-- The candidate list built by `mapOpenAIStreamChunkToGemini`
(`chunk.choices.map ...`); `none` models the `TypeError` thrown when some
choice has no `delta`. -/
def mapStreamCandidates? : List ChunkChoice → Option (List GeminiCandidate)
  | [] => some []
  | choice :: rest =>
    match choice.delta with
    | none => none
    | some delta =>
      match mapStreamCandidates? rest with
      | none => none
      | some cands =>
        some (⟨(match delta.content with
                | some s => [.text s]
                | none => []),
               (if strTruthy choice.finish_reason then
                  some (geminiMapFinishReason choice.finish_reason)
                else none),
               choice.index⟩ :: cands)

/-- `mapOpenAIStreamChunkToGemini` from `src/providers/gemini/sse.ts`:
a text part exactly when `delta.content !== null && !== undefined`
(an empty string still yields a part), `finishReason` only when the
finish reason is truthy. -/
def mapOpenAIStreamChunkToGemini (chunk : ChatCompletionChunk) : Option GeminiResponse :=
  (mapStreamCandidates? chunk.choices).map GeminiResponse.mk

/-- The per-stream tool-call buffer `toolCallBuffer: Record<number,
BufferedToolCall>`, as an association list in insertion order (its key set
is duplicate-free by construction). -/
structure BufferedToolCall where
  id : String
  name : String
  arguments : String
deriving Repr, DecidableEq

abbrev ToolCallBuffer := List (Nat × BufferedToolCall)

/-- `toolCallBuffer[index]` lookup. -/
def bufFind : ToolCallBuffer → Nat → Option BufferedToolCall
  | [], _ => none
  | (j, b) :: rest, i => if j = i then some b else bufFind rest i

/-- Processing one entry of `delta.tool_calls`: the first fragment for an
index stores `id || ''`, `function?.name || ''` and `function?.arguments
|| ''`; later fragments append `function?.arguments` when truthy. -/
def bufferInsert (buf : ToolCallBuffer) (tc : ToolCallDelta) : ToolCallBuffer :=
  match bufFind buf tc.index with
  | none =>
      buf ++ [(tc.index,
        ⟨tc.id.getD "", (tc.function.bind (·.name)).getD "",
         (tc.function.bind (·.arguments)).getD ""⟩)]
  | some _ =>
      if strTruthy (tc.function.bind (·.arguments)) then
        buf.map (fun p =>
          if p.1 = tc.index then
            (p.1, ⟨p.2.id, p.2.name, p.2.arguments ++ (tc.function.bind (·.arguments)).getD ""⟩)
          else p)
      else buf

/-- `chunk.choices[0]?.delta?.tool_calls` — the fragments buffered from one
chunk (optional chaining: absent pieces yield nothing). -/
def chunkToolCalls (chunk : ChatCompletionChunk) : List ToolCallDelta :=
  match chunk.choices.head? with
  | some choice =>
    match choice.delta with
    | some d => d.tool_calls.getD []
    | none => []
  | none => []

/-- The ascending key order of the flush (`sort((a, b) => a - b)`). -/
def bufLe (a b : Nat × BufferedToolCall) : Bool := a.1 ≤ b.1

/-- The flush: `Object.keys(toolCallBuffer).map(Number).sort((a,b)=>a-b)`
then per-index lookup.  Sorting the (duplicate-free-keyed) pairs by key and
mapping equals sorting the keys and looking each one up. -/
def flushParts (buf : ToolCallBuffer) : List GPart :=
  (buf.mergeSort bufLe).map (fun p =>
    GPart.functionCall (some p.2.id) p.2.name ((Json.parse p.2.arguments).getD (.obj [])))

/-- The flushed extra output frame: one candidate, `role: 'model'`,
`finishReason: 'STOP'`, `index: choice.index`. -/
def flushFrame (parts : List GPart) (index : Nat) : GeminiResponse :=
  ⟨[⟨parts, some .STOP, index⟩]⟩

/-- The text frames written for one chunk: the mapped chunk is written iff
`candidates.length > 0 && candidates[0].content.parts.length > 0`. -/
def textFramesOf (chunk : ChatCompletionChunk) : List GeminiResponse :=
  match mapOpenAIStreamChunkToGemini chunk with
  | none => []
  | some g =>
    match g.candidates.head? with
    | some cand => if cand.parts.isEmpty then [] else [g]
    | none => []

/-- One iteration of the pump loop on a parsed chunk, in source order:
translate-and-write the text frame, buffer tool-call fragments, and on a
truthy finish reason flush the buffered calls (if any) as one extra frame.
A chunk whose translation throws is skipped whole (caught per line). -/
def geminiStreamStep (buf : ToolCallBuffer) (chunk : ChatCompletionChunk) :
    ToolCallBuffer × List GeminiResponse :=
  match mapOpenAIStreamChunkToGemini chunk with
  | none => (buf, [])
  | some _ =>
    let buf' := (chunkToolCalls chunk).foldl bufferInsert buf
    match chunk.choices.head? with
    | some choice =>
      if strTruthy choice.finish_reason then
        let parts := flushParts buf'
        (buf', textFramesOf chunk ++ (if parts.isEmpty then [] else [flushFrame parts choice.index]))
      else (buf', textFramesOf chunk)
    | none => (buf', textFramesOf chunk)

/-- The pump of `convertOpenAIStreamToGeminiSSE` over a parsed chunk
sequence, from a given buffer state (the buffer is allocated fresh per
stream and never cleared). -/
def runGeminiStreamAux (buf : ToolCallBuffer) : List ChatCompletionChunk → List GeminiResponse
  | [] => []
  | c :: cs =>
    let (buf', out) := geminiStreamStep buf c
    out ++ runGeminiStreamAux buf' cs

/-- All frames written by `convertOpenAIStreamToGeminiSSE` for a parsed
chunk sequence. -/
def runGeminiStream (chunks : List ChatCompletionChunk) : List GeminiResponse :=
  runGeminiStreamAux [] chunks

/-! Declarative descriptions used to state C1. -/

/-- All tool-call fragments of a stream, in arrival order. -/
def streamToolCalls (cs : List ChatCompletionChunk) : List ToolCallDelta :=
  cs.flatMap chunkToolCalls

/-- What the buffer holds for index `i` after a fragment list: id and name
from the first fragment carrying that index, argument text concatenated in
arrival order (absent pieces read as `''`). -/
def accumulatedToolCall (frs : List ToolCallDelta) (i : Nat) : Option BufferedToolCall :=
  match frs.filter (fun tc => tc.index == i) with
  | [] => none
  | tc :: rest =>
    some ⟨tc.id.getD "", (tc.function.bind (·.name)).getD "",
      String.join ((tc :: rest).map (fun t => (t.function.bind (·.arguments)).getD ""))⟩

/-- The function-call part flushed for index `i`: the buffered id, the
buffered name, and the accumulated argument text parsed as JSON with `{}`
on parse failure.  (The `.text ""` default is never reached for an index
that occurs in the fragment list.) -/
def flushedPartFor (frs : List ToolCallDelta) (i : Nat) : GPart :=
  match accumulatedToolCall frs i with
  | some b => .functionCall (some b.id) b.name ((Json.parse b.arguments).getD (.obj []))
  | none => .text ""

/-- Every choice of the chunk carries a `delta` (the shape every real
backend chunk has); on such chunks the translation does not throw. -/
def chunkWellFormed (chunk : ChatCompletionChunk) : Bool :=
  chunk.choices.all (fun choice => choice.delta.isSome)

/-- Truthiness of the first choice's finish reason, as tested by the pump. -/
def chunkFinishTruthy (chunk : ChatCompletionChunk) : Bool :=
  match chunk.choices.head? with
  | some choice => strTruthy choice.finish_reason
  | none => false

/-- Output parts that are function calls (used to state that text frames
carry none). -/
def GPart.isCall : GPart → Bool
  | .functionCall _ _ _ => true
  | .text _ => false

/-! ## Gemini request mapper — tool-call identity correlation

From `src/providers/gemini/request.ts` (`convertGeminiContentToOpenAI`,
`convertFunctionCallsToAssistantMessage`,
`convertFunctionResponsesToToolMessages`) and `src/providers/gemini/utils.ts`
(`generateToolCallId`).  `Date.now()` is modelled by an explicit clock: a
function from the reading counter to the millisecond value, threaded through
the mapping in call order (consecutive readings may or may not return the
same millisecond — the source gives no guarantee). -/

structure FunctionCall where
  /-- `(fc as any).id` — honoured when it is a (truthy) string. -/
  id : Option String
  name : String
  args : Json
deriving Repr

structure FunctionResponse where
  /-- `(fr as any).id` — honoured when it is a (truthy) string. -/
  id : Option String
  name : String
  response : Json
deriving Repr

inductive GeminiPart where
  | text (t : String)
  | inlineData (mimeType : String) (data : String)
  | functionCall (fc : FunctionCall)
  | functionResponse (fr : FunctionResponse)
  /-- Unsupported in OpenAI: logged and skipped. -/
  | fileData (fileUri : String) (mimeType : String)
  /-- Unsupported in OpenAI: logged and skipped. -/
  | executableCode (language : String) (code : String)
  /-- Unsupported in OpenAI: logged and skipped. -/
  | codeExecutionResult (outcome : String) (output : String)
deriving Repr

structure GeminiContent where
  role : String
  parts : List GeminiPart
deriving Repr

/-- Type guards from `gemini/utils.ts`. -/
def isTextPart : GeminiPart → Bool
  | .text _ => true
  | _ => false

def isFunctionCallPart : GeminiPart → Bool
  | .functionCall _ => true
  | _ => false

def partFunctionCall : GeminiPart → Option FunctionCall
  | .functionCall fc => some fc
  | _ => none

def partFunctionResponse : GeminiPart → Option FunctionResponse
  | .functionResponse fr => some fr
  | _ => none

/-- `generateToolCallId` from `gemini/utils.ts`:
`call_${functionName}_${Date.now()}`; the `Date.now()` reading is the
explicit second argument. -/
def generateToolCallId (functionName : String) (now : Nat) : String :=
  "call_" ++ functionName ++ "_" ++ toString now

/-- `convertPartToOpenAIContentPart` from `request.ts`. -/
def convertPartToOpenAIContentPart : GeminiPart → Option OAContentPart
  | .text t => some (.text t)
  | .inlineData mt d => some (.image_url ("data:" ++ mt ++ ";base64," ++ d))
  | _ => none

/-- `convertPartsToOpenAIContent` from `request.ts`: a bare string when all
parts are text (joined by newline), a content-part array otherwise. -/
def convertPartsToOpenAIContent (parts : List GeminiPart) :
    Sum String (List OAContentPart) :=
  if parts.isEmpty then .inl ""
  else if (parts.filter isTextPart).length = parts.length then
    .inl (String.intercalate "\n"
      (parts.filterMap (fun p => match p with | .text t => some t | _ => none)))
  else
    .inr (parts.filterMap convertPartToOpenAIContentPart)

/-- The emitted tool call (`type: 'function'` constant).  In the current
source `function.arguments` receives `fc.args` unserialised, hence `Json`
here. -/
structure GToolCall where
  id : String
  name : String
  arguments : Json
deriving Repr

/-- Message shapes pushed by the Gemini request mapper. -/
inductive GeminiOAMessage where
  /-- `{ role:'assistant', content: string|null, tool_calls }`. -/
  | assistantToolCalls (content : Option String) (tool_calls : List GToolCall)
  /-- `{ role:'tool', tool_call_id, content: JSON.stringify(response) }`. -/
  | toolMsg (tool_call_id : String) (content : String)
  /-- `{ role:'user', content }`. -/
  | userMsg (content : Sum String (List OAContentPart))
  /-- `{ role:'assistant', content: text }`. -/
  | assistantMsg (content : String)
deriving Repr

/-- The tool-call list built by `convertFunctionCallsToAssistantMessage`,
threading the clock: a (truthy) caller-supplied `fc.id` is used unchanged
and reads no clock; otherwise `generateToolCallId(fc.name)` reads the clock
at the next position. -/
def toolCallsOf (clock : Nat → Nat) (k : Nat) :
    List FunctionCall → List GToolCall × Nat
  | [] => ([], k)
  | fc :: fcs =>
    let idk : String × Nat :=
      if strTruthy fc.id then (fc.id.getD "", k)
      else (generateToolCallId fc.name (clock k), k + 1)
    let rest := toolCallsOf clock idk.2 fcs
    (⟨idk.1, fc.name, fc.args⟩ :: rest.1, rest.2)

/-- `convertFunctionCallsToAssistantMessage` from `request.ts`. -/
def convertFunctionCallsToAssistantMessage (clock : Nat → Nat) (k : Nat)
    (allParts : List GeminiPart) : GeminiOAMessage × Nat :=
  let tcs := toolCallsOf clock k (allParts.filterMap partFunctionCall)
  let otherParts := allParts.filter (fun p => !isFunctionCallPart p)
  let textContent : Option (Sum String (List OAContentPart)) :=
    if otherParts.isEmpty then none else some (convertPartsToOpenAIContent otherParts)
  (.assistantToolCalls
    (match textContent with
     | some (.inl s) => some s
     | _ => none)
    tcs.1, tcs.2)

/-- `convertFunctionResponsesToToolMessages` from `request.ts`: a (truthy)
caller-supplied `fr.id` is used unchanged; otherwise
`generateToolCallId(fr.name)` reads the clock (the source's own comment
concedes this fallback "may not align with the call"). -/
def convertFunctionResponsesToToolMessages (clock : Nat → Nat) (k : Nat) :
    List FunctionResponse → List GeminiOAMessage × Nat
  | [] => ([], k)
  | fr :: frs =>
    let idk : String × Nat :=
      if strTruthy fr.id then (fr.id.getD "", k)
      else (generateToolCallId fr.name (clock k), k + 1)
    let rest := convertFunctionResponsesToToolMessages clock idk.2 frs
    (.toolMsg idk.1 (Json.render fr.response) :: rest.1, rest.2)

/-- `convertStandardContentToMessage` from `request.ts`. -/
def convertStandardContentToMessage (content : GeminiContent) : Option GeminiOAMessage :=
  match convertPartsToOpenAIContent content.parts with
  | .inl s =>
    if s.trim = "" then none
    else if content.role = "model" then some (.assistantMsg s)
    else some (.userMsg (.inl s))
  | .inr ps =>
    if ps.isEmpty then none
    else if content.role = "model" then
      let textContent := String.intercalate "\n"
        (ps.filterMap (fun p => match p with | .text t => some t | _ => none))
      if textContent.trim = "" then none else some (.assistantMsg textContent)
    else some (.userMsg (.inr ps))

/-- `convertGeminiContentToOpenAI` from `request.ts`: function-call parts
take precedence, then function-response parts, then standard content. -/
def convertGeminiContentToOpenAI (clock : Nat → Nat) (k : Nat)
    (content : GeminiContent) : List GeminiOAMessage × Nat :=
  if !(content.parts.filter isFunctionCallPart).isEmpty then
    let mk' := convertFunctionCallsToAssistantMessage clock k content.parts
    ([mk'.1], mk'.2)
  else if !(content.parts.filterMap partFunctionResponse).isEmpty then
    convertFunctionResponsesToToolMessages clock k
      (content.parts.filterMap partFunctionResponse)
  else
    match convertStandardContentToMessage content with
    | some m => ([m], k)
    | none => ([], k)

/-- The `contents` loop of `mapGeminiRequestToOpenAI` (`request.ts`),
threading the clock through the turns in order. -/
def mapGeminiContents (clock : Nat → Nat) (k : Nat) :
    List GeminiContent → List GeminiOAMessage × Nat
  | [] => ([], k)
  | c :: cs =>
    let mk' := convertGeminiContentToOpenAI clock k c
    let rest := mapGeminiContents clock mk'.2 cs
    (mk'.1 ++ rest.1, rest.2)

/-! Concrete stream from the spec's worked streaming example: the tool
call's name arrives in chunk 1, its argument text split across chunks 2–4,
and the finish reason in chunk 5. -/

def exToolNameChunk : ChatCompletionChunk :=
  ⟨[⟨0, some ⟨none, none, some [⟨0, some "call_1", some ⟨some "get_weather", none⟩⟩]⟩, none⟩]⟩

def exArgsChunk1 : ChatCompletionChunk :=
  ⟨[⟨0, some ⟨none, none, some [⟨0, none, some ⟨none, some "\x7b\"a\":"⟩⟩]⟩, none⟩]⟩

def exArgsChunk2 : ChatCompletionChunk :=
  ⟨[⟨0, some ⟨none, none, some [⟨0, none, some ⟨none, some "1,"⟩⟩]⟩, none⟩]⟩

def exArgsChunk3 : ChatCompletionChunk :=
  ⟨[⟨0, some ⟨none, none, some [⟨0, none, some ⟨none, some "\"b\":2\x7d"⟩⟩]⟩, none⟩]⟩

def exFinishChunk : ChatCompletionChunk :=
  ⟨[⟨0, some ⟨none, none, none⟩, some "tool_calls"⟩]⟩

def exStreamPrefix : List ChatCompletionChunk :=
  [exToolNameChunk, exArgsChunk1, exArgsChunk2, exArgsChunk3]

/-! ## Theorems -/

/-- Helper: tool-call fragment events are never stream-terminating events. -/
theorem toolCallDeltaEvents_terminal_false (tc : ToolCallDelta) :
    ∀ e ∈ toolCallDeltaEvents tc, isTerminalEvent e = false := by
  intro e he
  simp only [toolCallDeltaEvents, List.mem_append] at he
  rcases he with h | h <;> split at h <;> simp_all [isTerminalEvent]

/-- C5: the Anthropic finish-reason mapper sends `stop ↦ end_turn`,
`length ↦ max_tokens`, `tool_calls`/`function_call ↦ tool_use`,
`content_filter ↦ null`, and every other input (null/undefined included)
to `null`; the Gemini finish-reason mapper sends `stop ↦ STOP`,
`length ↦ MAX_TOKENS`, `content_filter ↦ SAFETY`,
`tool_calls`/`function_call ↦ STOP`, and every other input to `OTHER`. -/
theorem C5_finish_reason_mappers :
    anthropicMapFinishReason (some "stop") = some .end_turn
  ∧ anthropicMapFinishReason (some "length") = some .max_tokens
  ∧ anthropicMapFinishReason (some "tool_calls") = some .tool_use
  ∧ anthropicMapFinishReason (some "function_call") = some .tool_use
  ∧ anthropicMapFinishReason (some "content_filter") = none
  ∧ anthropicMapFinishReason none = none
  ∧ (∀ s : String,
      s ∉ (["stop", "length", "tool_calls", "function_call", "content_filter"] : List String) →
      anthropicMapFinishReason (some s) = none)
  ∧ geminiMapFinishReason (some "stop") = .STOP
  ∧ geminiMapFinishReason (some "length") = .MAX_TOKENS
  ∧ geminiMapFinishReason (some "content_filter") = .SAFETY
  ∧ geminiMapFinishReason (some "tool_calls") = .STOP
  ∧ geminiMapFinishReason (some "function_call") = .STOP
  ∧ geminiMapFinishReason none = .OTHER
  ∧ (∀ s : String,
      s ∉ (["stop", "length", "tool_calls", "function_call", "content_filter"] : List String) →
      geminiMapFinishReason (some s) = .OTHER) := by
  refine ⟨rfl, rfl, rfl, rfl, rfl, rfl, ?_, rfl, rfl, rfl, rfl, rfl, rfl, ?_⟩ <;>
  · intro s hs
    simp only [List.mem_cons, List.not_mem_nil, or_false, not_or] at hs
    obtain ⟨h1, h2, h3, h4, h5⟩ := hs
    simp [anthropicMapFinishReason, geminiMapFinishReason, h1, h2, h3, h4, h5]

/-- C5 witness: both default branches evaluated at the concrete unmapped
reason string "banana". -/
theorem C5_finish_reason_mappers_witness :
    anthropicMapFinishReason (some "banana") = none
  ∧ geminiMapFinishReason (some "banana") = .OTHER := by
  obtain ⟨-, -, -, -, -, -, h7, -, -, -, -, -, -, h14⟩ := C5_finish_reason_mappers
  exact ⟨h7 "banana" (by decide), h14 "banana" (by decide)⟩

/-- C2 (amended: the first choice must carry a `delta` object — a chunk whose
first choice has a finish reason but no delta yields no events at all, see
the counterexample): on a chunk whose first choice has a delta and a truthy
(non-null) finish_reason, the mapper's output ends with exactly the three
terminal events `content_block_stop` (index 0), `message_delta` carrying the
mapped stop reason, and `message_stop`, and no terminal event occurs earlier,
regardless of text or tool-call deltas in the chunk. -/
theorem C2_anthropic_stream_terminal_events (chunk : ChatCompletionChunk)
    (choice : ChunkChoice) (delta : ChunkDelta)
    (h1 : chunk.choices.head? = some choice) (h2 : choice.delta = some delta)
    (h3 : strTruthy choice.finish_reason = true) :
    ∃ pre : List AnthropicEvent,
      mapOpenAIStreamChunkToAnthropic chunk =
        pre ++ [.content_block_stop 0,
                .message_delta (anthropicMapFinishReason choice.finish_reason),
                .message_stop]
      ∧ ∀ e ∈ pre, isTerminalEvent e = false := by
  refine ⟨(if strTruthy delta.content then
            [.content_block_delta_text 0 (delta.content.getD "")] else []) ++
          (match delta.tool_calls with
           | some tcs => tcs.flatMap toolCallDeltaEvents
           | none => []), ?_, ?_⟩
  · simp only [mapOpenAIStreamChunkToAnthropic, h1, h2, h3, if_true, List.append_assoc]
  · intro e he
    simp only [List.mem_append] at he
    rcases he with h | h
    · split at h <;> simp_all [isTerminalEvent]
    · split at h
      · simp only [List.mem_flatMap] at h
        obtain ⟨tc, -, htc⟩ := h
        exact toolCallDeltaEvents_terminal_false tc e htc
      · simp at h

/-- C2 witness: the amended theorem applied to a concrete chunk carrying the
text "Hi" and finish reason "stop". -/
theorem C2_anthropic_stream_terminal_events_witness :
    ∃ pre : List AnthropicEvent,
      mapOpenAIStreamChunkToAnthropic ⟨[⟨0, some ⟨none, some "Hi", none⟩, some "stop"⟩]⟩ =
        pre ++ [.content_block_stop 0,
                .message_delta (anthropicMapFinishReason (some "stop")),
                .message_stop]
      ∧ ∀ e ∈ pre, isTerminalEvent e = false :=
  C2_anthropic_stream_terminal_events ⟨[⟨0, some ⟨none, some "Hi", none⟩, some "stop"⟩]⟩
    ⟨0, some ⟨none, some "Hi", none⟩, some "stop"⟩ ⟨none, some "Hi", none⟩ rfl rfl (by decide)

/-- C2 counterexample to the claim as stated: a chunk whose first choice
carries the non-null finish reason "stop" but no `delta` object produces the
empty event list — no terminal events are emitted at all, so the mapper does
not emit the three terminal events for *every* chunk with a non-null finish
reason. -/
theorem C2_counterexample_no_delta :
    (ChatCompletionChunk.mk [⟨0, none, some "stop"⟩]).choices.head? =
      some ⟨0, none, some "stop"⟩
  ∧ strTruthy (some "stop") = true
  ∧ mapOpenAIStreamChunkToAnthropic ⟨[⟨0, none, some "stop"⟩]⟩ = []
  ∧ ([] : List AnthropicEvent).length = 0 :=
  ⟨rfl, by decide, rfl, rfl⟩

/-- C10: a chunk with an empty choices array, a first choice without a
`delta`, or a role-only delta (no content, no tool_calls) under a null
finish_reason maps to the empty Anthropic event list. -/
theorem C10_role_only_chunk_no_events (chunk : ChatCompletionChunk)
    (h : chunk.choices = []
       ∨ (∃ choice rest, chunk.choices = choice :: rest ∧ choice.delta = none)
       ∨ (∃ choice rest delta r, chunk.choices = choice :: rest ∧ choice.delta = some delta
            ∧ delta.role = some r ∧ delta.content = none ∧ delta.tool_calls = none
            ∧ choice.finish_reason = none)) :
    mapOpenAIStreamChunkToAnthropic chunk = [] := by
  rcases h with h | ⟨choice, rest, hc, hd⟩ | ⟨choice, rest, delta, r, hc, hd, -, h1, h2, h3⟩
  · simp [mapOpenAIStreamChunkToAnthropic, h]
  · simp [mapOpenAIStreamChunkToAnthropic, hc, hd]
  · simp [mapOpenAIStreamChunkToAnthropic, hc, hd, h1, h2, h3, strTruthy]

/-- C10 witness: a concrete role-only preamble chunk
(`delta: { role: "assistant" }`, `finish_reason: null`) yields no events. -/
theorem C10_role_only_chunk_no_events_witness :
    mapOpenAIStreamChunkToAnthropic ⟨[⟨0, some ⟨some "assistant", none, none⟩, none⟩]⟩ = [] :=
  C10_role_only_chunk_no_events ⟨[⟨0, some ⟨some "assistant", none, none⟩, none⟩]⟩
    (Or.inr (Or.inr ⟨⟨0, some ⟨some "assistant", none, none⟩, none⟩, [],
      ⟨some "assistant", none, none⟩, "assistant", rfl, rfl, rfl, rfl, rfl, rfl⟩))

/-- C4 (code bug): `mapOpenAIResponseToAnthropic` calls
`JSON.parse(toolCall.function.arguments || '{}')` with no try/catch, so a
malformed non-empty arguments string makes the mapping throw (`none`) instead
of producing a `tool_use` block with input `{}` as the claim states; the same
response with well-formed arguments maps to a complete message. -/
theorem C4_anthropic_response_throws_on_malformed_arguments :
    mapOpenAIResponseToAnthropic
      ⟨"chatcmpl-1", "gpt-4",
        [⟨0, ⟨some none, some [⟨"call_1", "function", ⟨"f", "not json"⟩⟩]⟩, some "tool_calls"⟩]⟩
      = none
  ∧ Json.parse "not json" = none
  ∧ mapOpenAIResponseToAnthropic
      ⟨"chatcmpl-1", "gpt-4",
        [⟨0, ⟨some none, some [⟨"call_1", "function", ⟨"f", "\x7b\x7d"⟩⟩]⟩, some "tool_calls"⟩]⟩
      = some ⟨"chatcmpl-1", [.text "", .tool_use "call_1" "f" (.obj [])], "gpt-4",
              some .tool_use⟩ :=
  ⟨rfl, rfl, rfl⟩

/-- C8 (amended: the Anthropic text block leads the content list whenever the
source `content` *field is present* — possibly null; when the field is absent
and tool calls exist, no text block is emitted, see the counterexample):
(1) with the content field present, the Anthropic content list starts with a
text block carrying `content || ''`; (2) a first choice with `content: null`
and no tool calls yields exactly one empty-string text block; (3) every
successfully mapped Anthropic message has ≥ 1 block; (4) a choice with
`content: null` and no tool calls yields a Gemini candidate with exactly one
empty-string text part; (5) every Gemini candidate has ≥ 1 part. -/
theorem C8_response_content_guarantees :
    (∀ (resp : ChatCompletion) (choice : ResponseChoice) (msg : AnthropicMessage),
        resp.choices.head? = some choice →
        choice.message.content ≠ none →
        mapOpenAIResponseToAnthropic resp = some msg →
        ∃ rest, msg.content = .text ((choice.message.content.getD none).getD "") :: rest)
  ∧ (∀ (resp : ChatCompletion) (choice : ResponseChoice) (msg : AnthropicMessage),
        resp.choices.head? = some choice →
        choice.message.content = some none →
        choice.message.tool_calls.getD [] = [] →
        mapOpenAIResponseToAnthropic resp = some msg →
        msg.content = [.text ""])
  ∧ (∀ (resp : ChatCompletion) (msg : AnthropicMessage),
        mapOpenAIResponseToAnthropic resp = some msg → msg.content ≠ [])
  ∧ (∀ (resp : ChatCompletion) (choice : ResponseChoice),
        choice ∈ resp.choices →
        choice.message.content = some none →
        choice.message.tool_calls.getD [] = [] →
        GeminiCandidate.mk [.text ""] (some (geminiMapFinishReason choice.finish_reason))
            choice.index
          ∈ (mapOpenAIResponseToGemini resp).candidates)
  ∧ (∀ (resp : ChatCompletion) (cand : GeminiCandidate),
        cand ∈ (mapOpenAIResponseToGemini resp).candidates → cand.parts ≠ []) := by
  refine ⟨?_, ?_, ?_, ?_, ?_⟩
  · intro resp choice msg h1 h2 h3
    match hc : choice.message.content with
    | none => exact absurd hc h2
    | some c =>
      simp only [mapOpenAIResponseToAnthropic, h1, hc] at h3
      match hm : (choice.message.tool_calls.getD []).mapM anthropicToolUseBlocks with
      | none => rw [hm] at h3; exact absurd h3 (by simp)
      | some toolLists =>
        rw [hm] at h3
        simp only [Option.some.injEq] at h3
        refine ⟨toolLists.flatten, ?_⟩
        rw [← h3]
        simp [hc]
  · intro resp choice msg h1 h2 htc h3
    simp only [mapOpenAIResponseToAnthropic, h1, h2, htc] at h3
    simp only [List.mapM_nil, Option.pure_def, Option.some.injEq] at h3
    rw [← h3]
    simp
  · intro resp msg h
    match h1 : resp.choices.head? with
    | none => simp [mapOpenAIResponseToAnthropic, h1] at h
    | some choice =>
      simp only [mapOpenAIResponseToAnthropic, h1] at h
      match hm : (choice.message.tool_calls.getD []).mapM anthropicToolUseBlocks with
      | none => rw [hm] at h; exact absurd h (by simp)
      | some toolLists =>
        rw [hm] at h
        simp only [Option.some.injEq] at h
        rw [← h]
        split
        · simp
        · rename_i hne
          simpa using hne
  · intro resp choice hmem h1 h2
    simp only [mapOpenAIResponseToGemini, List.mem_map]
    refine ⟨choice, hmem, ?_⟩
    have hparts : geminiResponseParts choice.message = [] := by
      match htc : choice.message.tool_calls with
      | none => simp [geminiResponseParts, h1, htc]
      | some tcs =>
        rw [htc] at h2
        simp only [Option.getD_some] at h2
        simp [geminiResponseParts, h1, htc, h2]
    simp [hparts]
  · intro resp cand hmem
    simp only [mapOpenAIResponseToGemini, List.mem_map] at hmem
    obtain ⟨choice, -, heq⟩ := hmem
    rw [← heq]
    simp only
    split
    · simp
    · rename_i hne
      simpa using hne

/-- C8 witness: the amended theorem applied to a concrete
`content: null` / no-tool-calls response for both providers. -/
theorem C8_response_content_guarantees_witness :
    (AnthropicMessage.mk "id1" [.text ""] "m" (some .end_turn)).content = [.text ""]
  ∧ GeminiCandidate.mk [.text ""] (some .STOP) 0 ∈
      (mapOpenAIResponseToGemini
        ⟨"id1", "m", [⟨0, ⟨some none, none⟩, some "stop"⟩]⟩).candidates := by
  refine ⟨?_, ?_⟩
  · exact C8_response_content_guarantees.2.1
      ⟨"id1", "m", [⟨0, ⟨some none, none⟩, some "stop"⟩]⟩
      ⟨0, ⟨some none, none⟩, some "stop"⟩ _ rfl rfl rfl rfl
  · exact C8_response_content_guarantees.2.2.2.1
      ⟨"id1", "m", [⟨0, ⟨some none, none⟩, some "stop"⟩]⟩
      ⟨0, ⟨some none, none⟩, some "stop"⟩ (by simp) rfl rfl

/-- C8 counterexample to the claim as stated: a response whose first choice
has an *absent* content field (undefined, not null) and one tool call maps to
an Anthropic content list whose only block is the `tool_use` block — no text
block is emitted at all, so the text block is not "always present". -/
theorem C8_counterexample_absent_content :
    mapOpenAIResponseToAnthropic
      ⟨"chatcmpl-2", "gpt-4",
        [⟨0, ⟨none, some [⟨"call_1", "function", ⟨"f", "\x7b\x7d"⟩⟩]⟩, some "tool_calls"⟩]⟩
      = some ⟨"chatcmpl-2", [.tool_use "call_1" "f" (.obj [])], "gpt-4", some .tool_use⟩ :=
  rfl

/-- Helper: over a run of blocks without `tool_result`, the block loop only
accumulates, and ends in the final flush of the accumulated parts and
pending tool calls. -/
theorem mapBlocks_no_tool_result (role : String) (ts : List AnthropicBlock)
    (h : ∀ b ∈ ts, isToolResultBlock b = false) (cc : List OAContentPart)
    (ct : List OAToolCall) :
    mapBlocks role cc ct ts =
      flushCurrentMessage role (cc ++ ts.filterMap blockToContentPart)
        (ct ++ ts.filterMap blockToToolCall) := by
  induction ts generalizing cc ct with
  | nil => simp [mapBlocks]
  | cons b bs ih =>
    have hb := h b (List.mem_cons_self b bs)
    have hrest : ∀ x ∈ bs, isToolResultBlock x = false :=
      fun x hx => h x (List.mem_cons_of_mem b hx)
    cases b with
    | text t =>
        simp [mapBlocks, ih hrest, blockToContentPart, blockToToolCall, List.filterMap_cons]
    | image_base64 mt d =>
        simp [mapBlocks, ih hrest, blockToContentPart, blockToToolCall, List.filterMap_cons]
    | image_url u =>
        simp [mapBlocks, ih hrest, blockToContentPart, blockToToolCall, List.filterMap_cons]
    | tool_use i n input =>
        simp [mapBlocks, ih hrest, blockToContentPart, blockToToolCall, List.filterMap_cons]
    | tool_result tuid c => simp [isToolResultBlock] at hb
    | thinking =>
        simp [mapBlocks, ih hrest, blockToContentPart, blockToToolCall, List.filterMap_cons]
    | unsupported s =>
        simp [mapBlocks, ih hrest, blockToContentPart, blockToToolCall, List.filterMap_cons]

/-- Helper: a `tool_result` block flushes the buffers accumulated so far and
emits the standalone tool message, and the loop continues on the remaining
blocks with empty buffers. -/
theorem mapBlocks_tool_result_split (role : String) (ts : List AnthropicBlock)
    (h : ∀ b ∈ ts, isToolResultBlock b = false) (tuid : String) (c : ToolResultContent)
    (rest : List AnthropicBlock) (cc : List OAContentPart) (ct : List OAToolCall) :
    mapBlocks role cc ct (ts ++ .tool_result tuid c :: rest) =
      flushCurrentMessage role (cc ++ ts.filterMap blockToContentPart)
          (ct ++ ts.filterMap blockToToolCall) ++
        ⟨"tool", .str (renderToolResultContent c), none, some tuid⟩ ::
          mapBlocks role [] [] rest := by
  induction ts generalizing cc ct with
  | nil => simp [mapBlocks]
  | cons b bs ih =>
    have hb := h b (List.mem_cons_self b bs)
    have hrest : ∀ x ∈ bs, isToolResultBlock x = false :=
      fun x hx => h x (List.mem_cons_of_mem b hx)
    cases b with
    | text t =>
        simp [mapBlocks, ih hrest, blockToContentPart, blockToToolCall, List.filterMap_cons]
    | image_base64 mt d =>
        simp [mapBlocks, ih hrest, blockToContentPart, blockToToolCall, List.filterMap_cons]
    | image_url u =>
        simp [mapBlocks, ih hrest, blockToContentPart, blockToToolCall, List.filterMap_cons]
    | tool_use i n input =>
        simp [mapBlocks, ih hrest, blockToContentPart, blockToToolCall, List.filterMap_cons]
    | tool_result tuid' c' => simp [isToolResultBlock] at hb
    | thinking =>
        simp [mapBlocks, ih hrest, blockToContentPart, blockToToolCall, List.filterMap_cons]
    | unsupported s =>
        simp [mapBlocks, ih hrest, blockToContentPart, blockToToolCall, List.filterMap_cons]

/-- C6: for block-list content, the mapper iterates blocks in order
accumulating text/image parts and pending tool calls; a `tool_result` block
first flushes the accumulated buffer as one message and then emits a
standalone role-`tool` message whose `tool_call_id` is the block's
`tool_use_id` (the loop then restarts with empty buffers); a block run
containing pending `tool_use` blocks ends in a single assistant message
carrying both the buffered content and the tool calls. -/
theorem C6_anthropic_block_algorithm :
    (∀ (role : String) (ts : List AnthropicBlock) (tuid : String) (c : ToolResultContent)
        (rest : List AnthropicBlock), (∀ b ∈ ts, isToolResultBlock b = false) →
      mapAnthropicMessage ⟨role, .blocks (ts ++ .tool_result tuid c :: rest)⟩ =
        flushCurrentMessage role (ts.filterMap blockToContentPart)
            (ts.filterMap blockToToolCall) ++
          ⟨"tool", .str (renderToolResultContent c), none, some tuid⟩ ::
            mapAnthropicMessage ⟨role, .blocks rest⟩)
  ∧ (∀ (role : String) (ts : List AnthropicBlock),
      (∀ b ∈ ts, isToolResultBlock b = false) →
      ts.filterMap blockToToolCall ≠ [] →
      mapAnthropicMessage ⟨role, .blocks ts⟩ =
        [⟨"assistant", assistantFilter (contentOfParts (ts.filterMap blockToContentPart)),
          some (ts.filterMap blockToToolCall), none⟩]) := by
  constructor
  · intro role ts tuid c rest h
    have := mapBlocks_tool_result_split role ts h tuid c rest [] []
    simpa [mapAnthropicMessage] using this
  · intro role ts h hne
    have := mapBlocks_no_tool_result role ts h [] []
    simp only [List.nil_append] at this
    have hflush : flushCurrentMessage role (ts.filterMap blockToContentPart)
        (ts.filterMap blockToToolCall) =
        [⟨"assistant", assistantFilter (contentOfParts (ts.filterMap blockToContentPart)),
          some (ts.filterMap blockToToolCall), none⟩] := by
      simp [flushCurrentMessage, List.isEmpty_iff, hne]
    simpa [mapAnthropicMessage, hflush] using this

/-- C6 witness: the block algorithm on the concrete message
`[text "Result is:", tool_result "tool-1" "42", text "Cool."]` (the shape
exercised by the repository's own request-mapper test). -/
theorem C6_anthropic_block_algorithm_witness :
    mapAnthropicMessage ⟨"user",
        .blocks ([AnthropicBlock.text "Result is:"] ++
          .tool_result "tool-1" (.str "42") :: [AnthropicBlock.text "Cool."])⟩ =
      flushCurrentMessage "user"
          (List.filterMap blockToContentPart [AnthropicBlock.text "Result is:"])
          (List.filterMap blockToToolCall [AnthropicBlock.text "Result is:"]) ++
        ⟨"tool", .str (renderToolResultContent (.str "42")), none, some "tool-1"⟩ ::
          mapAnthropicMessage ⟨"user", .blocks [AnthropicBlock.text "Cool."]⟩ :=
  C6_anthropic_block_algorithm.1 "user" [AnthropicBlock.text "Result is:"] "tool-1"
    (.str "42") [AnthropicBlock.text "Cool."] (by intro b hb; simp at hb; subst hb; rfl)

/-- Helper: text blocks contribute exactly their text parts. -/
theorem filterMap_blockToContentPart_text (ts : List String) :
    (ts.map AnthropicBlock.text).filterMap blockToContentPart =
      ts.map OAContentPart.text := by
  induction ts with
  | nil => rfl
  | cons t ts ih => simp [List.filterMap_cons, blockToContentPart, ih]

/-- Helper: text blocks contribute no tool calls. -/
theorem filterMap_blockToToolCall_text (ts : List String) :
    (ts.map AnthropicBlock.text).filterMap blockToToolCall = [] := by
  induction ts with
  | nil => rfl
  | cons t ts ih => simp [List.filterMap_cons, blockToToolCall, ih]

/-- C7 (amended: two or more consecutive text blocks map to one message
whose content is the *array* of the corresponding text parts in original
order, not the newline-joined string — the newline join exists only in the
superseded `mapper.ts` variant of the request mapper; a *single* text block
does collapse to a bare string): for ≥ 2 text blocks the mapped message's
content is the list of text parts in order. -/
theorem C7_amended_consecutive_text_blocks (role : String) (ts : List String)
    (h2 : 2 ≤ ts.length) (hrole : role = "user" ∨ role = "assistant") :
    mapAnthropicMessage ⟨role, .blocks (ts.map .text)⟩ =
      [⟨role, .parts (ts.map OAContentPart.text), none, none⟩] := by
  have hnr : ∀ b ∈ ts.map AnthropicBlock.text, isToolResultBlock b = false := by
    intro b hb
    simp only [List.mem_map] at hb
    obtain ⟨t, -, rfl⟩ := hb
    rfl
  have hrun := mapBlocks_no_tool_result role (ts.map .text) hnr [] []
  rw [filterMap_blockToContentPart_text, filterMap_blockToToolCall_text] at hrun
  simp only [List.nil_append, List.append_nil] at hrun
  match ts, h2 with
  | t1 :: t2 :: ts', _ =>
    have hcontent : contentOfParts ((t1 :: t2 :: ts').map OAContentPart.text) =
        .parts ((t1 :: t2 :: ts').map OAContentPart.text) := by
      simp [contentOfParts]
    have hfilter : ((t1 :: t2 :: ts').map OAContentPart.text).filter
        isAssistantContentPart = (t1 :: t2 :: ts').map OAContentPart.text := by
      rw [List.filter_eq_self]
      intro a ha
      simp only [List.mem_map] at ha
      obtain ⟨t, -, rfl⟩ := ha
      rfl
    simp only [List.map_cons] at hrun hcontent hfilter
    rcases hrole with rfl | rfl <;>
      simp [mapAnthropicMessage, hrun, flushCurrentMessage, hcontent, assistantFilter, hfilter]

/-- C7 witness: the amended statement at the concrete blocks
`[text "Hello", text "World"]` of a user message. -/
theorem C7_amended_consecutive_text_blocks_witness :
    mapAnthropicMessage ⟨"user", .blocks (["Hello", "World"].map .text)⟩ =
      [⟨"user", .parts (["Hello", "World"].map OAContentPart.text), none, none⟩] :=
  C7_amended_consecutive_text_blocks "user" ["Hello", "World"] (by decide) (Or.inl rfl)

/-- C7 counterexample to the claim as stated: the message
`[text "Hello", text "World"]` maps to multipart content
`[text "Hello", text "World"]`, not to the single joined string
`"Hello\nWorld"` the claim asserts. -/
theorem C7_counterexample_two_text_blocks :
    mapAnthropicMessage ⟨"user", .blocks [.text "Hello", .text "World"]⟩ =
      [⟨"user", .parts [.text "Hello", .text "World"], none, none⟩]
  ∧ mapAnthropicMessage ⟨"user", .blocks [.text "Hello", .text "World"]⟩ ≠
      [⟨"user", .str "Hello\nWorld", none, none⟩] :=
  ⟨rfl, by decide⟩

/-- Helper: on a well-formed choice list the stream translation does not
throw. -/
theorem mapStreamCandidates?_isSome (choices : List ChunkChoice)
    (h : choices.all (fun choice => choice.delta.isSome) = true) :
    ∃ cands, mapStreamCandidates? choices = some cands := by
  induction choices with
  | nil => exact ⟨[], rfl⟩
  | cons choice rest ih =>
    simp only [List.all_cons, Bool.and_eq_true] at h
    obtain ⟨cands, hc⟩ := ih h.2
    obtain ⟨delta, hd⟩ := Option.isSome_iff_exists.mp h.1
    exact ⟨⟨(match delta.content with
             | some s => [.text s]
             | none => []),
            (if strTruthy choice.finish_reason then
               some (geminiMapFinishReason choice.finish_reason)
             else none),
            choice.index⟩ :: cands, by simp [mapStreamCandidates?, hd, hc]⟩

/-- Helper: flushed parts are all function-call parts. -/
theorem flushParts_all_isCall (buf : ToolCallBuffer) :
    ∀ p ∈ flushParts buf, p.isCall = true := by
  intro p hp
  simp only [flushParts, List.mem_map] at hp
  obtain ⟨q, -, rfl⟩ := hp
  rfl

/-- C9 (amended: the translator emits one text output frame exactly when the
first choice's delta *content field is present* — including the empty
string, which the claim's "non-empty text" wording excludes, see the
counterexample): with content present the single emitted frame carries that
content verbatim as its only text part; with content absent no text frame is
emitted; and whatever the pump writes beyond the text frames for a chunk
consists of function-call parts only. -/
theorem C9_gemini_text_frame_emission (buf : ToolCallBuffer) (chunk : ChatCompletionChunk)
    (choice : ChunkChoice) (delta : ChunkDelta)
    (hwf : chunkWellFormed chunk = true)
    (hch : chunk.choices.head? = some choice) (hd : choice.delta = some delta) :
    (∀ s, delta.content = some s →
       ∃ g cands, mapOpenAIStreamChunkToGemini chunk = some g
         ∧ textFramesOf chunk = [g]
         ∧ g.candidates =
             ⟨[.text s],
              (if strTruthy choice.finish_reason then
                 some (geminiMapFinishReason choice.finish_reason)
               else none),
              choice.index⟩ :: cands)
  ∧ (delta.content = none → textFramesOf chunk = [])
  ∧ ∃ flushOut, (geminiStreamStep buf chunk).2 = textFramesOf chunk ++ flushOut
      ∧ ∀ g ∈ flushOut, ∀ cand ∈ g.candidates, ∀ p ∈ cand.parts, p.isCall = true := by
  match hcs : chunk.choices, hch with
  | choice :: rest, rfl =>
  have hwf' := hwf
  rw [chunkWellFormed, hcs] at hwf'
  simp only [List.all_cons, Bool.and_eq_true] at hwf'
  obtain ⟨cands, hrest⟩ := mapStreamCandidates?_isSome rest hwf'.2
  have hcore : mapOpenAIStreamChunkToGemini chunk =
      some ⟨⟨(match delta.content with
              | some s => [.text s]
              | none => []),
             (if strTruthy choice.finish_reason then
                some (geminiMapFinishReason choice.finish_reason)
              else none),
             choice.index⟩ :: cands⟩ := by
    simp [mapOpenAIStreamChunkToGemini, hcs, mapStreamCandidates?, hd, hrest]
  refine ⟨?_, ?_, ?_⟩
  · intro s hs
    refine ⟨_, cands, hcore, ?_, by rw [hs]⟩
    simp [textFramesOf, hcore, hs]
  · intro hs
    simp [textFramesOf, hcore, hs]
  · simp only [geminiStreamStep, hcore, hcs]
    simp only [List.head?_cons]
    split
    · refine ⟨_, rfl, ?_⟩
      intro g hg cand hcand p hp
      split at hg
      · simp at hg
      · simp only [List.mem_singleton] at hg
        subst hg
        simp only [flushFrame, List.mem_singleton] at hcand
        subst hcand
        exact flushParts_all_isCall _ p hp
    · exact ⟨[], by simp, by simp⟩

/-- C9 witness: the amended theorem at a concrete chunk carrying the text
"Hello". -/
theorem C9_gemini_text_frame_emission_witness :
    (∀ s, (ChunkDelta.mk none (some "Hello") none).content = some s →
       ∃ g cands,
         mapOpenAIStreamChunkToGemini ⟨[⟨0, some ⟨none, some "Hello", none⟩, none⟩]⟩ = some g
         ∧ textFramesOf ⟨[⟨0, some ⟨none, some "Hello", none⟩, none⟩]⟩ = [g]
         ∧ g.candidates =
             ⟨[.text s],
              (if strTruthy (ChunkChoice.mk 0 (some ⟨none, some "Hello", none⟩) none).finish_reason
               then some (geminiMapFinishReason
                 (ChunkChoice.mk 0 (some ⟨none, some "Hello", none⟩) none).finish_reason)
               else none),
              0⟩ :: cands)
  ∧ ((ChunkDelta.mk none (some "Hello") none).content = none →
      textFramesOf ⟨[⟨0, some ⟨none, some "Hello", none⟩, none⟩]⟩ = [])
  ∧ ∃ flushOut,
      (geminiStreamStep [] ⟨[⟨0, some ⟨none, some "Hello", none⟩, none⟩]⟩).2 =
        textFramesOf ⟨[⟨0, some ⟨none, some "Hello", none⟩, none⟩]⟩ ++ flushOut
      ∧ ∀ g ∈ flushOut, ∀ cand ∈ g.candidates, ∀ p ∈ cand.parts, p.isCall = true :=
  C9_gemini_text_frame_emission [] ⟨[⟨0, some ⟨none, some "Hello", none⟩, none⟩]⟩
    ⟨0, some ⟨none, some "Hello", none⟩, none⟩ ⟨none, some "Hello", none⟩
    (by decide) rfl rfl

/-- C9 counterexample to the claim as stated: a chunk whose first choice
delta carries the *empty* string as content — not "non-empty text" — still
produces one output frame (with an empty text part). -/
theorem C9_counterexample_empty_string_content :
    textFramesOf ⟨[⟨0, some ⟨none, some "", none⟩, none⟩]⟩ =
      [⟨[⟨[.text ""], none, 0⟩]⟩]
  ∧ (geminiStreamStep [] ⟨[⟨0, some ⟨none, some "", none⟩, none⟩]⟩).2 =
      [⟨[⟨[.text ""], none, 0⟩]⟩] :=
  ⟨rfl, rfl⟩

/-! Buffer-accumulation lemmas for C1. -/

/-- Appending an entry under a different key does not change a lookup. -/
theorem bufFind_append_ne (buf : ToolCallBuffer) (j i : Nat) (b : BufferedToolCall)
    (h : j ≠ i) : bufFind (buf ++ [(j, b)]) i = bufFind buf i := by
  induction buf with
  | nil => simp [bufFind, h]
  | cons p rest ih =>
    by_cases hp : p.1 = i <;> simp [bufFind, hp, ih]

/-- Appending an entry under a key that is absent makes it found. -/
theorem bufFind_append_self (buf : ToolCallBuffer) (i : Nat) (b : BufferedToolCall)
    (h : bufFind buf i = none) : bufFind (buf ++ [(i, b)]) i = some b := by
  induction buf with
  | nil => simp [bufFind]
  | cons p rest ih =>
    by_cases hp : p.1 = i
    · simp [bufFind, hp] at h
    · simp only [bufFind, hp, if_neg, List.cons_append] at h ⊢
      simp only [bufFind, hp, if_false]
      exact ih h

/-- Point-update of the entry under key `j` (the `buf.map` in
`bufferInsert`) rewrites exactly that lookup. -/
theorem bufFind_map_update (buf : ToolCallBuffer) (j i : Nat) (s : String) :
    bufFind (buf.map (fun p =>
        if p.1 = j then (p.1, ⟨p.2.id, p.2.name, p.2.arguments ++ s⟩) else p)) i =
      if i = j then
        (bufFind buf i).map (fun b => ⟨b.id, b.name, b.arguments ++ s⟩)
      else bufFind buf i := by
  induction buf with
  | nil => simp [bufFind]
  | cons p rest ih =>
    simp only [List.map_cons]
    by_cases hj : p.1 = j
    · rw [if_pos hj]
      by_cases hi : p.1 = i
      · have hij : i = j := hi.symm.trans hj
        simp [bufFind, hi, hij]
      · simp only [bufFind, hi, if_false, ih]
    · rw [if_neg hj]
      by_cases hi : p.1 = i
      · have hij : ¬(i = j) := fun h => hj (hi.trans h)
        simp [bufFind, hi, hij]
      · simp only [bufFind, hi, if_false, ih]

/-- A key is absent from the association list iff its lookup is `none`. -/
theorem bufFind_eq_none_iff (buf : ToolCallBuffer) (i : Nat) :
    bufFind buf i = none ↔ i ∉ buf.map Prod.fst := by
  induction buf with
  | nil => simp [bufFind]
  | cons p rest ih =>
    simp only [bufFind, List.map_cons, List.mem_cons]
    by_cases hp : p.1 = i
    · simp [hp]
    · simp only [hp, if_false, ih]
      constructor
      · intro h hmem
        rcases hmem with h1 | h1
        · exact hp h1.symm
        · exact h h1
      · intro h hmem
        exact h (Or.inr hmem)

/-- The point-update keeps the key list. -/
theorem bufKeys_map_update (buf : ToolCallBuffer) (j : Nat) (s : String) :
    (buf.map (fun p =>
        if p.1 = j then (p.1, ⟨p.2.id, p.2.name, p.2.arguments ++ s⟩) else p)).map Prod.fst =
      buf.map Prod.fst := by
  rw [List.map_map]
  refine List.map_congr_left ?_
  intro p _
  by_cases hj : p.1 = j <;> simp [hj]

/-- With duplicate-free keys, every entry is what its key looks up to. -/
theorem bufFind_of_mem (buf : ToolCallBuffer) (hnd : (buf.map Prod.fst).Nodup)
    (j : Nat) (b : BufferedToolCall) (hmem : (j, b) ∈ buf) :
    bufFind buf j = some b := by
  induction buf with
  | nil => simp at hmem
  | cons p rest ih =>
    simp only [List.map_cons, List.nodup_cons] at hnd
    rcases List.mem_cons.mp hmem with h | h
    · subst h
      simp [bufFind]
    · have hj : p.1 ≠ j := by
        intro hpj
        exact hnd.1 (hpj ▸ (List.mem_map.mpr ⟨(j, b), h, rfl⟩))
      simp only [bufFind, hj, if_false]
      exact ih hnd.2 h

/-- A falsy optional string reads as the empty string. -/
theorem getD_empty_of_not_strTruthy (o : Option String) (h : strTruthy o = false) :
    o.getD "" = "" := by
  cases o with
  | none => rfl
  | some s =>
    simp only [strTruthy, ne_eq, decide_not, Bool.not_eq_false, decide_eq_true_eq] at h
    simpa using h

/-- `String.join` distributes over a trailing singleton. -/
theorem string_join_append_singleton (l : List String) (x : String) :
    String.join (l ++ [x]) = String.join l ++ x := by
  simp [String.join, List.foldl_append]

/-- Equation: inserting a fragment whose index is absent appends the initial
entry. -/
theorem bufferInsert_absent (buf : ToolCallBuffer) (tc : ToolCallDelta)
    (h : bufFind buf tc.index = none) :
    bufferInsert buf tc =
      buf ++ [(tc.index,
        ⟨tc.id.getD "", (tc.function.bind (·.name)).getD "",
         (tc.function.bind (·.arguments)).getD ""⟩)] := by
  unfold bufferInsert
  rw [h]

/-- Equation: a later fragment with truthy argument text appends to the
buffered arguments of its index. -/
theorem bufferInsert_present_truthy (buf : ToolCallBuffer) (tc : ToolCallDelta)
    (b : BufferedToolCall) (h : bufFind buf tc.index = some b)
    (ht : strTruthy (tc.function.bind (·.arguments)) = true) :
    bufferInsert buf tc =
      buf.map (fun p =>
        if p.1 = tc.index then
          (p.1, ⟨p.2.id, p.2.name, p.2.arguments ++ (tc.function.bind (·.arguments)).getD ""⟩)
        else p) := by
  unfold bufferInsert
  rw [h, if_pos ht]

/-- Equation: a later fragment with falsy argument text leaves the buffer
unchanged. -/
theorem bufferInsert_present_falsy (buf : ToolCallBuffer) (tc : ToolCallDelta)
    (b : BufferedToolCall) (h : bufFind buf tc.index = some b)
    (ht : strTruthy (tc.function.bind (·.arguments)) = false) :
    bufferInsert buf tc = buf := by
  unfold bufferInsert
  rw [h, if_neg (by simp [ht])]

/-- The declarative accumulation is empty exactly when no fragment carries
the index. -/
theorem accumulatedToolCall_eq_none_iff (frs : List ToolCallDelta) (i : Nat) :
    accumulatedToolCall frs i = none ↔ frs.filter (fun t => t.index == i) = [] := by
  unfold accumulatedToolCall
  cases hf : frs.filter (fun t => t.index == i) <;> simp

/-- A trailing fragment with a different index does not change the
accumulation. -/
theorem accumulatedToolCall_append_ne (frs : List ToolCallDelta) (tc : ToolCallDelta)
    (i : Nat) (h : tc.index ≠ i) :
    accumulatedToolCall (frs ++ [tc]) i = accumulatedToolCall frs i := by
  unfold accumulatedToolCall
  rw [List.filter_append]
  simp [List.filter_cons, h]

/-- A trailing fragment that is the *first* for its index initialises the
accumulation from it. -/
theorem accumulatedToolCall_append_first (frs : List ToolCallDelta) (tc : ToolCallDelta)
    (i : Nat) (h : tc.index = i) (hf : frs.filter (fun t => t.index == i) = []) :
    accumulatedToolCall (frs ++ [tc]) i =
      some ⟨tc.id.getD "", (tc.function.bind (·.name)).getD "",
            (tc.function.bind (·.arguments)).getD ""⟩ := by
  unfold accumulatedToolCall
  rw [List.filter_append, hf]
  simp [List.filter_cons, h, String.join]

/-- A trailing fragment for an already-accumulated index appends its
argument text. -/
theorem accumulatedToolCall_append_later (frs : List ToolCallDelta) (tc : ToolCallDelta)
    (i : Nat) (b : BufferedToolCall) (h : tc.index = i)
    (hb : accumulatedToolCall frs i = some b) :
    accumulatedToolCall (frs ++ [tc]) i =
      some ⟨b.id, b.name, b.arguments ++ (tc.function.bind (·.arguments)).getD ""⟩ := by
  unfold accumulatedToolCall at hb ⊢
  rw [List.filter_append]
  cases hf : frs.filter (fun t => t.index == i) with
  | nil => rw [hf] at hb; exact absurd hb.symm (by simp)
  | cons tc0 rest0 =>
    rw [hf] at hb
    simp only [Option.some.injEq] at hb
    simp only [List.filter_cons, List.filter_nil, h, beq_self_eq_true, if_true,
      List.cons_append, Option.some.injEq]
    rw [← hb]
    simp only [BufferedToolCall.mk.injEq, true_and]
    rw [show List.map (fun t => ((t.function.bind (·.arguments)).getD ""))
          (tc0 :: (rest0 ++ [tc])) =
        (List.map (fun t => ((t.function.bind (·.arguments)).getD "")) (tc0 :: rest0)) ++
          [(tc.function.bind (·.arguments)).getD ""] by simp]
    rw [string_join_append_singleton]

/-- Invariant: after folding a fragment list into the buffer, looking up
index `i` yields exactly the declarative accumulation for `i` (id and name
from the first fragment with that index, argument text concatenated in
arrival order). -/
theorem bufFind_foldl_bufferInsert (frs : List ToolCallDelta) (i : Nat) :
    bufFind (frs.foldl bufferInsert []) i = accumulatedToolCall frs i := by
  induction frs using List.reverseRecOn with
  | nil => simp [bufFind, accumulatedToolCall]
  | append_singleton frs tc ih =>
    rw [List.foldl_append]
    simp only [List.foldl_cons, List.foldl_nil]
    by_cases hidx : tc.index = i
    · subst hidx
      cases hB : bufFind (frs.foldl bufferInsert []) tc.index with
      | none =>
        have hfil : frs.filter (fun t => t.index == tc.index) = [] :=
          (accumulatedToolCall_eq_none_iff frs tc.index).mp (hB ▸ ih).symm
        rw [bufferInsert_absent _ _ hB, bufFind_append_self _ _ _ hB,
            accumulatedToolCall_append_first frs tc tc.index rfl hfil]
      | some b =>
        have hacc : accumulatedToolCall frs tc.index = some b := hB ▸ ih.symm
        rw [accumulatedToolCall_append_later frs tc tc.index b rfl hacc]
        by_cases htr : strTruthy (tc.function.bind (·.arguments)) = true
        · rw [bufferInsert_present_truthy _ _ b hB htr, bufFind_map_update,
              if_pos rfl, hB]
          rfl
        · have htr' : strTruthy (tc.function.bind (·.arguments)) = false :=
            Bool.eq_false_iff.mpr htr
          rw [bufferInsert_present_falsy _ _ b hB htr', hB,
              getD_empty_of_not_strTruthy _ htr']
          simp
    · rw [accumulatedToolCall_append_ne frs tc i hidx]
      cases hB : bufFind (frs.foldl bufferInsert []) tc.index with
      | none =>
        rw [bufferInsert_absent _ _ hB, bufFind_append_ne _ _ _ _ hidx, ih]
      | some b =>
        by_cases htr : strTruthy (tc.function.bind (·.arguments)) = true
        · rw [bufferInsert_present_truthy _ _ b hB htr, bufFind_map_update,
              if_neg (fun h => hidx h.symm), ih]
        · rw [bufferInsert_present_falsy _ _ b hB (Bool.eq_false_iff.mpr htr), ih]

/-- Invariant: the buffer's key list is duplicate-free and holds exactly the
indices declared by the fragment list. -/
theorem bufKeys_foldl_bufferInsert (frs : List ToolCallDelta) :
    ((frs.foldl bufferInsert []).map Prod.fst).Nodup
  ∧ ∀ i, i ∈ (frs.foldl bufferInsert []).map Prod.fst ↔ ∃ tc ∈ frs, tc.index = i := by
  induction frs using List.reverseRecOn with
  | nil => simp
  | append_singleton frs tc ih =>
    rw [List.foldl_append]
    simp only [List.foldl_cons, List.foldl_nil]
    obtain ⟨hnd, hmem⟩ := ih
    cases hB : bufFind (frs.foldl bufferInsert []) tc.index with
    | none =>
      have hnotmem : tc.index ∉ (frs.foldl bufferInsert []).map Prod.fst :=
        (bufFind_eq_none_iff _ _).mp hB
      rw [bufferInsert_absent _ _ hB]
      constructor
      · rw [List.map_append]
        exact List.Nodup.append hnd (by simp)
          (by intro a ha hb
              simp only [List.map_cons, List.map_nil, List.mem_singleton] at hb
              exact hnotmem (hb ▸ ha))
      · intro i
        rw [List.map_append]
        constructor
        · intro hmem'
          rcases List.mem_append.mp hmem' with h | h
          · obtain ⟨tc', htc', heq⟩ := (hmem i).mp h
            exact ⟨tc', List.mem_append.mpr (Or.inl htc'), heq⟩
          · simp only [List.map_cons, List.map_nil, List.mem_singleton] at h
            exact ⟨tc, List.mem_append.mpr (Or.inr (by simp)), h.symm⟩
        · rintro ⟨tc', htc', heq⟩
          rcases List.mem_append.mp htc' with h | h
          · exact List.mem_append.mpr (Or.inl ((hmem i).mpr ⟨tc', h, heq⟩))
          · simp only [List.mem_singleton] at h
            subst h
            exact List.mem_append.mpr (Or.inr (by simp [heq]))
    | some b =>
      have hinmem : tc.index ∈ (frs.foldl bufferInsert []).map Prod.fst := by
        by_contra hcon
        rw [← bufFind_eq_none_iff] at hcon
        rw [hB] at hcon
        exact absurd hcon (by simp)
      have hkeys : ∀ buf' : ToolCallBuffer,
          buf'.map Prod.fst = (frs.foldl bufferInsert []).map Prod.fst →
          (buf'.map Prod.fst).Nodup
        ∧ ∀ i, i ∈ buf'.map Prod.fst ↔ ∃ t ∈ frs ++ [tc], t.index = i := by
        intro buf' hk
        rw [hk]
        refine ⟨hnd, ?_⟩
        intro i
        constructor
        · intro hmem'
          obtain ⟨tc', htc', heq⟩ := (hmem i).mp hmem'
          exact ⟨tc', List.mem_append.mpr (Or.inl htc'), heq⟩
        · rintro ⟨tc', htc', heq⟩
          rcases List.mem_append.mp htc' with h | h
          · exact (hmem i).mpr ⟨tc', h, heq⟩
          · simp only [List.mem_singleton] at h
            subst h
            exact heq ▸ hinmem
      by_cases htr : strTruthy (tc.function.bind (·.arguments)) = true
      · rw [bufferInsert_present_truthy _ _ b hB htr]
        exact hkeys _ (bufKeys_map_update _ _ _)
      · rw [bufferInsert_present_falsy _ _ b hB (Bool.eq_false_iff.mpr htr)]
        exact hkeys _ rfl

theorem bufLe_trans : ∀ a b c : Nat × BufferedToolCall,
    bufLe a b = true → bufLe b c = true → bufLe a c = true := by
  intro a b c hab hbc
  simp only [bufLe, decide_eq_true_eq] at hab hbc ⊢
  omega

theorem bufLe_total : ∀ a b : Nat × BufferedToolCall, (bufLe a b || bufLe b a) = true := by
  intro a b
  simp only [bufLe, Bool.or_eq_true, decide_eq_true_eq]
  omega

/-- The flush of the folded buffer: there is a strictly ascending index list
holding exactly the declared indices, and the flushed parts are the
declarative per-index parts in that order. -/
theorem flushParts_foldl_spec (frs : List ToolCallDelta) :
    ∃ is : List Nat,
      List.Sorted (· < ·) is
      ∧ (∀ i, i ∈ is ↔ ∃ tc ∈ frs, tc.index = i)
      ∧ flushParts (frs.foldl bufferInsert []) = is.map (flushedPartFor frs) := by
  obtain ⟨hnd, hmem⟩ := bufKeys_foldl_bufferInsert frs
  have hperm : ((frs.foldl bufferInsert []).mergeSort bufLe).Perm (frs.foldl bufferInsert []) :=
    List.mergeSort_perm _ _
  have hkeysperm :
      (((frs.foldl bufferInsert []).mergeSort bufLe).map Prod.fst).Perm
        ((frs.foldl bufferInsert []).map Prod.fst) := hperm.map _
  have hkeynd : (((frs.foldl bufferInsert []).mergeSort bufLe).map Prod.fst).Nodup :=
    hkeysperm.symm.nodup hnd
  have hsorted : List.Pairwise (fun a b => bufLe a b = true)
      ((frs.foldl bufferInsert []).mergeSort bufLe) :=
    List.sorted_mergeSort bufLe_trans bufLe_total _
  refine ⟨((frs.foldl bufferInsert []).mergeSort bufLe).map Prod.fst, ?_, ?_, ?_⟩
  · have h1 : List.Pairwise (· ≤ ·)
        ((((frs.foldl bufferInsert []).mergeSort bufLe)).map Prod.fst) := by
      rw [List.pairwise_map]
      exact hsorted.imp (fun h => by
        simpa only [bufLe, decide_eq_true_eq] using h)
    exact (h1.and hkeynd).imp (fun h => lt_of_le_of_ne h.1 h.2)
  · intro i
    rw [hkeysperm.mem_iff]
    exact hmem i
  · rw [flushParts, List.map_map]
    refine List.map_congr_left ?_
    intro p hp
    have hpB : p ∈ frs.foldl bufferInsert [] := hperm.subset hp
    have hfind : bufFind (frs.foldl bufferInsert []) p.1 = some p.2 :=
      bufFind_of_mem _ hnd p.1 p.2 hpB
    have hacc : accumulatedToolCall frs p.1 = some p.2 := by
      rw [← bufFind_foldl_bufferInsert]
      exact hfind
    simp [flushedPartFor, hacc, Function.comp]

/-- Step equation for a well-formed chunk without a finish reason: buffer
the fragments, write only the text frame. -/
theorem geminiStreamStep_no_finish (buf : ToolCallBuffer) (chunk : ChatCompletionChunk)
    (hwf : chunkWellFormed chunk = true) (hnf : chunkFinishTruthy chunk = false) :
    geminiStreamStep buf chunk =
      ((chunkToolCalls chunk).foldl bufferInsert buf, textFramesOf chunk) := by
  obtain ⟨cands, hc⟩ := mapStreamCandidates?_isSome chunk.choices hwf
  have hcore : mapOpenAIStreamChunkToGemini chunk = some ⟨cands⟩ := by
    simp [mapOpenAIStreamChunkToGemini, hc]
  cases hh : chunk.choices.head? with
  | none => simp [geminiStreamStep, hcore, hh]
  | some choice =>
    have hf : strTruthy choice.finish_reason = false := by
      rw [chunkFinishTruthy, hh] at hnf
      exact hnf
    simp [geminiStreamStep, hcore, hh, hf]

/-- Step equation for a well-formed chunk whose first choice has a truthy
finish reason: buffer the fragments (the finish chunk's own fragments
included), write the text frame, then flush the buffered calls (if any) as
one extra frame. -/
theorem geminiStreamStep_finish (buf : ToolCallBuffer) (chunk : ChatCompletionChunk)
    (choice : ChunkChoice) (hwf : chunkWellFormed chunk = true)
    (hh : chunk.choices.head? = some choice)
    (hf : strTruthy choice.finish_reason = true) :
    geminiStreamStep buf chunk =
      ((chunkToolCalls chunk).foldl bufferInsert buf,
       textFramesOf chunk ++
         (if (flushParts ((chunkToolCalls chunk).foldl bufferInsert buf)).isEmpty then []
          else [flushFrame (flushParts ((chunkToolCalls chunk).foldl bufferInsert buf))
                  choice.index])) := by
  obtain ⟨cands, hc⟩ := mapStreamCandidates?_isSome chunk.choices hwf
  have hcore : mapOpenAIStreamChunkToGemini chunk = some ⟨cands⟩ := by
    simp [mapOpenAIStreamChunkToGemini, hc]
  simp [geminiStreamStep, hcore, hh, hf]

/-- Pump equation over a finish-free well-formed prefix: its text frames are
written in order and its fragments accumulate into the buffer. -/
theorem runGeminiStreamAux_append_no_finish (pre rest : List ChatCompletionChunk)
    (buf : ToolCallBuffer)
    (hwf : ∀ c ∈ pre, chunkWellFormed c = true)
    (hnf : ∀ c ∈ pre, chunkFinishTruthy c = false) :
    runGeminiStreamAux buf (pre ++ rest) =
      pre.flatMap textFramesOf ++
        runGeminiStreamAux ((streamToolCalls pre).foldl bufferInsert buf) rest := by
  induction pre generalizing buf with
  | nil => simp [streamToolCalls]
  | cons c pre ih =>
    simp only [List.cons_append, runGeminiStreamAux]
    rw [geminiStreamStep_no_finish buf c (hwf c (by simp)) (hnf c (by simp))]
    simp only [List.append_eq]
    rw [ih _ (fun x hx => hwf x (by simp [hx])) (fun x hx => hnf x (by simp [hx]))]
    simp [streamToolCalls, List.foldl_append, List.append_assoc]

/-- Candidates built by the stream chunk mapper carry no function-call
parts. -/
theorem mapStreamCandidates?_no_call (choices : List ChunkChoice)
    (cands : List GeminiCandidate) (h : mapStreamCandidates? choices = some cands) :
    ∀ cand ∈ cands, ∀ p ∈ cand.parts, p.isCall = false := by
  induction choices generalizing cands with
  | nil =>
    simp only [mapStreamCandidates?, Option.some.injEq] at h
    subst h
    simp
  | cons choice rest ih =>
    simp only [mapStreamCandidates?] at h
    cases hd : choice.delta with
    | none => rw [hd] at h; exact absurd h (by simp)
    | some delta =>
      rw [hd] at h
      cases hr : mapStreamCandidates? rest with
      | none => rw [hr] at h; exact absurd h (by simp)
      | some cands' =>
        rw [hr] at h
        simp only [Option.some.injEq] at h
        subst h
        intro cand hcand p hp
        rcases List.mem_cons.mp hcand with rfl | hc
        · revert hp
          cases delta.content <;> simp_all [GPart.isCall]
        · exact ih cands' hr cand hc p hp

/-- Text frames carry no function-call parts. -/
theorem textFramesOf_no_call (chunk : ChatCompletionChunk) :
    ∀ g ∈ textFramesOf chunk, ∀ cand ∈ g.candidates, ∀ p ∈ cand.parts,
      p.isCall = false := by
  intro g hg
  unfold textFramesOf at hg
  split at hg
  · exact absurd hg (by simp)
  · rename_i g' hcore
    split at hg
    · rename_i cand hh
      split at hg
      · exact absurd hg (by simp)
      · have hg' : g = g' := by simpa using hg
        subst hg'
        unfold mapOpenAIStreamChunkToGemini at hcore
        cases hmc : mapStreamCandidates? chunk.choices with
        | none => rw [hmc] at hcore; exact absurd hcore (by simp)
        | some cands =>
          rw [hmc] at hcore
          simp only [Option.map_some', Option.some.injEq] at hcore
          rw [← hcore]
          exact mapStreamCandidates?_no_call _ _ hmc
    · exact absurd hg (by simp)

/-- C1: over any well-formed chunk sequence, (i) while no chunk carries a
truthy finish reason the pump writes only the per-chunk text frames — and
text frames never contain function-call parts — so no function-call output
event precedes the finish chunk; (ii) when the sequence ends in the chunk
carrying the (unique) finish reason, the whole output is the text frames in
arrival order followed by at most one extra flush frame, emitted once, whose
function-call parts list the buffered tool calls in strictly ascending index
order, each carrying the id and name of the first fragment for its index and
its argument fragments concatenated in arrival order, parsed as JSON with
`{}` on parse failure. -/
theorem C1_gemini_stream_tool_call_buffering :
    (∀ pre : List ChatCompletionChunk,
      (∀ c ∈ pre, chunkWellFormed c = true) →
      (∀ c ∈ pre, chunkFinishTruthy c = false) →
      runGeminiStream pre = pre.flatMap textFramesOf)
  ∧ (∀ (pre : List ChatCompletionChunk) (fin : ChatCompletionChunk)
        (finChoice : ChunkChoice),
      (∀ c ∈ pre ++ [fin], chunkWellFormed c = true) →
      (∀ c ∈ pre, chunkFinishTruthy c = false) →
      fin.choices.head? = some finChoice →
      strTruthy finChoice.finish_reason = true →
      ∃ is : List Nat,
        List.Sorted (· < ·) is
        ∧ (∀ i, i ∈ is ↔ ∃ tc ∈ streamToolCalls (pre ++ [fin]), tc.index = i)
        ∧ runGeminiStream (pre ++ [fin]) =
            (pre ++ [fin]).flatMap textFramesOf ++
              (if is.isEmpty then []
               else [flushFrame (is.map (flushedPartFor (streamToolCalls (pre ++ [fin]))))
                       finChoice.index]))
  ∧ (∀ (cs : List ChatCompletionChunk),
      ∀ g ∈ cs.flatMap textFramesOf, ∀ cand ∈ g.candidates,
        ∀ p ∈ cand.parts, p.isCall = false) := by
  refine ⟨?_, ?_, ?_⟩
  · intro pre hwf hnf
    have h := runGeminiStreamAux_append_no_finish pre [] [] hwf hnf
    simpa [runGeminiStream, runGeminiStreamAux] using h
  · intro pre fin finChoice hwf hpre hch hfin
    obtain ⟨is, hsort, hmem, hfp⟩ := flushParts_foldl_spec (streamToolCalls (pre ++ [fin]))
    refine ⟨is, hsort, hmem, ?_⟩
    rw [runGeminiStream, runGeminiStreamAux_append_no_finish pre [fin] []
        (fun c hc => hwf c (by simp [hc])) hpre]
    have hB2 : (chunkToolCalls fin).foldl bufferInsert
        ((streamToolCalls pre).foldl bufferInsert []) =
        (streamToolCalls (pre ++ [fin])).foldl bufferInsert [] := by
      simp [streamToolCalls, List.flatMap_append, List.foldl_append]
    have hstep := geminiStreamStep_finish ((streamToolCalls pre).foldl bufferInsert []) fin
      finChoice (hwf fin (by simp)) hch hfin
    rw [hB2] at hstep
    simp only [runGeminiStreamAux, hstep, List.append_nil]
    rw [hfp, List.flatMap_append]
    simp only [List.flatMap_cons, List.flatMap_nil, List.append_nil, List.append_assoc]
    cases is with
    | nil => simp
    | cons i is' => simp
  · intro cs g hg
    rcases List.mem_flatMap.mp hg with ⟨c, -, hgc⟩
    exact textFramesOf_no_call c g hgc

/-- C1 witness: the spec's worked example — a tool call whose name arrives in
chunk 1 and whose argument text arrives split across chunks 2–4, flushed as
one function-call frame with the parsed arguments only on the finish chunk. -/
theorem C1_gemini_stream_tool_call_buffering_witness :
    ∃ is : List Nat,
      List.Sorted (· < ·) is
      ∧ (∀ i, i ∈ is ↔
          ∃ tc ∈ streamToolCalls (exStreamPrefix ++ [exFinishChunk]), tc.index = i)
      ∧ runGeminiStream (exStreamPrefix ++ [exFinishChunk]) =
          (exStreamPrefix ++ [exFinishChunk]).flatMap textFramesOf ++
            (if is.isEmpty then []
             else [flushFrame
               (is.map (flushedPartFor (streamToolCalls (exStreamPrefix ++ [exFinishChunk]))))
               0]) :=
  C1_gemini_stream_tool_call_buffering.2.1 exStreamPrefix exFinishChunk
    ⟨0, some ⟨none, none, none⟩, some "tool_calls"⟩
    (by decide) (by decide) rfl (by decide)

/-- C3 (code bug): for a model turn with a function-call part for `f` with
no caller-supplied id followed by a function-response turn for `f` with no
caller-supplied id, the mapper synthesizes `call_f_<Date.now()>`
*independently on each side*: with two consecutive clock readings 0 and 1
(one millisecond apart) the assistant tool_call id is `call_f_0` while the
tool message's tool_call_id is `call_f_1` — they differ, breaking the
correlation the claim and spec require.  The ids agree only when both
readings happen to coincide, and caller-supplied ids are passed through
unchanged on both sides. -/
theorem C3_tool_call_id_correlation_broken :
    mapGeminiContents (fun k => k) 0
      [⟨"model", [.functionCall ⟨none, "f", .obj []⟩]⟩,
       ⟨"user", [.functionResponse ⟨none, "f", .obj []⟩]⟩] =
      ([.assistantToolCalls none [⟨"call_f_0", "f", .obj []⟩],
        .toolMsg "call_f_1" "\x7b\x7d"], 2)
  ∧ "call_f_0" ≠ "call_f_1"
  ∧ mapGeminiContents (fun _ => 7) 0
      [⟨"model", [.functionCall ⟨none, "f", .obj []⟩]⟩,
       ⟨"user", [.functionResponse ⟨none, "f", .obj []⟩]⟩] =
      ([.assistantToolCalls none [⟨"call_f_7", "f", .obj []⟩],
        .toolMsg "call_f_7" "\x7b\x7d"], 2)
  ∧ mapGeminiContents (fun k => 100 + k) 5
      [⟨"model", [.functionCall ⟨some "call_123", "f", .obj []⟩]⟩,
       ⟨"user", [.functionResponse ⟨some "call_123", "f", .obj []⟩]⟩] =
      ([.assistantToolCalls none [⟨"call_123", "f", .obj []⟩],
        .toolMsg "call_123" "\x7b\x7d"], 5) :=
  ⟨rfl, by decide, rfl, rfl⟩

end OpenProxy
